import Mathlib

/-!
Verification development for the branch-history exporter of vcs-tools
(src/svnex.py and its helpers).  The Python source is shallowly embedded:
pure fragments become Lean functions, the stateful exporter becomes a
state-passing interpreter over an explicit state record, byte strings
become lists of natural numbers below 256, and every fallible operation
returns an error value mirroring the Python exception that would be
raised.  The dump-file lexical parser (read_record) is not part of the
repository source, so it is modelled from the spec as a reader of
successive (headers, body) records.
-/

/-! Byte and string helpers mirroring the Python primitives used by the
source.  Bytes are lists of Nat; strings are Lean strings compared and
sliced by code point, which matches Python semantics. -/

/-- UTF-8 encoding of one code point as byte values (RFC 3629). -/
def utf8Bytes (c : Nat) : List Nat :=
  if c < 0x80 then [c]
  else if c < 0x800 then [0xC0 + c / 64, 0x80 + c % 64]
  else if c < 0x10000 then [0xE0 + c / 4096, 0x80 + c / 64 % 64, 0x80 + c % 64]
  else [0xF0 + c / 262144, 0x80 + c / 4096 % 64, 0x80 + c / 64 % 64, 0x80 + c % 64]

/-- Encoding of a Lean string as UTF-8 bytes; models Python str.encode. -/
def strBytes (s : String) : List Nat :=
  s.data.foldr (fun c acc => utf8Bytes c.toNat ++ acc) []

/-- Decimal digits of a natural number, little endian, with explicit fuel
so that the kernel can evaluate it; empty for zero. -/
def decDigitsGo : Nat → Nat → List Nat
  | 0, _ => []
  | fuel + 1, n => if n = 0 then [] else n % 10 :: decDigitsGo fuel (n / 10)

/-- Decimal rendering of a natural number; models Python str(n) for n at
least zero. -/
def decRepr (n : Nat) : String :=
  if n = 0 then "0" else
    String.mk (((decDigitsGo (n + 1) n).reverse).map Nat.digitChar)

/-- Decimal rendering of an integer; models Python str on int. -/
def intRepr (i : Int) : String :=
  if i < 0 then "-" ++ decRepr i.natAbs else decRepr i.natAbs

/-- Rendering of an optional string by Python str.format: None prints as
the word None. -/
def optRepr : Option String → String
  | none => "None"
  | some s => s

/-- Value of an ASCII decimal digit character, if it is one. -/
def digitVal (c : Char) : Option Nat :=
  if '0' ≤ c ∧ c ≤ '9' then some (c.toNat - '0'.toNat) else none

/-- Parse of a nonempty string of decimal digits. -/
def parseDigits : List Char → Option Nat
  | [] => none
  | cs => cs.foldl (fun acc c => match acc, digitVal c with
      | some a, some d => some (a * 10 + d)
      | _, _ => none) (some 0)

/-- Python int() applied to a string: optional minus sign then digits;
anything else raises ValueError.  Whitespace stripping is not modelled
because no caller passes padded text. -/
def pyInt (s : String) : Except String Int :=
  match s.data with
  | '-' :: rest =>
      match parseDigits rest with
      | some n => .ok (-(n : Int))
      | none => .error "ValueError: invalid literal for int"
  | cs =>
      match parseDigits cs with
      | some n => .ok (n : Int)
      | none => .error "ValueError: invalid literal for int"

/-- Python int() applied to ASCII digit bytes, as used on pieces of the
property block. -/
def pyIntBytes (l : List Nat) : Except String Nat :=
  match l with
  | [] => .error "ValueError: invalid literal for int"
  | _ =>
    match l.foldl (fun acc b =>
        match acc with
        | some a => if 48 ≤ b ∧ b ≤ 57 then some (a * 10 + (b - 48)) else none
        | none => none) (some 0) with
    | some n => .ok n
    | none => .error "ValueError: invalid literal for int"

/-- Python str.lstrip applied with the slash character. -/
def lstripSlash (s : String) : String :=
  String.mk (s.data.dropWhile (· == '/'))

/-- Python str.rstrip applied with the slash character. -/
def rstripSlash (s : String) : String :=
  String.mk ((s.data.reverse.dropWhile (· == '/')).reverse)

/-- Python str.startswith, by code points. -/
def pyStartsWith (s pat : String) : Bool :=
  pat.data.isPrefixOf s.data

/-- Python slicing s[n:], by code points. -/
def pyDropChars (s : String) (n : Nat) : String :=
  String.mk (s.data.drop n)

/-- Python len of a string, in code points. -/
def pyStrLen (s : String) : Nat := s.data.length

/-- Python lexicographic comparison of character lists. -/
def charListLt : List Char → List Char → Bool
  | [], [] => false
  | [], _ :: _ => true
  | _ :: _, [] => false
  | a :: as, b :: bs =>
      if a < b then true else if b < a then false else charListLt as bs

/-- Python str comparison a < b, by code points. -/
def pyStrLt (a b : String) : Bool := charListLt a.data b.data

/-- Python substring membership test, needle in haystack, as used by the
test action not in "DR". -/
def pyInStr (needle haystack : String) : Bool :=
  List.any (List.range (haystack.data.length + 1)) (fun i =>
    needle.data.isPrefixOf (haystack.data.drop i))

/-- Lowercase mapping of a string, for the case-insensitive header-name
matching of email.message.Message. -/
def lowerStr (s : String) : String := String.mk (s.data.map Char.toLower)

/-- Byte-level startswith at an offset, modelling bytes.startswith with a
start argument. -/
def bytesStartsWithAt (l pat : List Nat) (off : Nat) : Bool :=
  pat.isPrefixOf (l.drop off)

/-- Python bytes.split on a newline byte with maxsplit one: the part before
the first newline and the part after it, or none when no newline occurs. -/
def splitOnceNL : List Nat → Option (List Nat × List Nat)
  | [] => none
  | b :: rest =>
      if b = 10 then some ([], rest)
      else match splitOnceNL rest with
        | some (pre, post) => some (b :: pre, post)
        | none => none

/-- ASCII decoding of bytes, as Python bytes.decode("ascii"): fails on any
byte of 128 or more. -/
def decodeAscii : List Nat → Except String String
  | l =>
    if l.all (· < 128) then
      .ok (String.mk (l.map (fun b => Char.ofNat b)))
    else .error "UnicodeDecodeError: ascii"

/-! The svndiff0 text-delta applier.  read_int (src/svnex.py lines 744-750)
reads a base-128 big-endian integer with continuation bits; the applier is
the inline fragment of Exporter.commit (src/svnex.py lines 324-352), which
accepts exactly one window holding exactly one instruction.  The MD5
checks surrounding the fragment (lines 320-321 and 353-354) compare
stream headers and are modelled at their call sites in the interpreter,
not here. -/

/-- Loop of read_int: i is shifted left seven bits and ored with the low
seven bits of each byte until a byte without the continuation bit ends the
number; reading from an exhausted stream raises ValueError. -/
def readIntGo (acc : Nat) : List Nat → Except String (Nat × List Nat)
  | [] => .error "ValueError: read_int on exhausted stream"
  | b :: rest =>
      let acc2 := acc * 128 + b % 128
      if (b / 128) % 2 = 1 then readIntGo acc2 rest else .ok (acc2, rest)

/-- read_int of src/svnex.py applied to the front of a byte list, returning
the value and the remaining bytes. -/
def readInt (l : List Nat) : Except String (Nat × List Nat) := readIntGo 0 l

/-- The svndiff0 applier fragment of Exporter.commit, src/svnex.py lines
324-352: magic, the five window header integers, one instruction byte
whose low six bits must be clear, the copy length from a varint, then
either COPY_FROM_SOURCE with offset zero (a prefix of the source) or
COPY_FROM_NEW reading the new data; everything else is rejected by an
assertion, and no trailing bytes may remain. -/
def applyTextDeltaCore (source : Option (List Nat)) (deltaBytes : List Nat) :
    Except String (List Nat) := do
  let magic := deltaBytes.take 4
  let rest0 := deltaBytes.drop 4
  if magic ≠ [0x53, 0x56, 0x4E, 0x00] then
    throw "AssertionError: svndiff magic"
  let (srcOff, rest1) ← readInt rest0
  if srcOff ≠ 0 then throw "AssertionError: source_offset is not zero"
  let (_srcLen, rest2) ← readInt rest1
  let (_tgtLen, rest3) ← readInt rest2
  let (instrLen, rest4) ← readInt rest3
  let (dataLen, rest5) ← readInt rest4
  let instrData := rest5.take instrLen
  let rest6 := rest5.drop instrLen
  if instrData.length ≠ instrLen then
    throw "AssertionError: instruction bytes truncated"
  match instrData with
  | [] => throw "ValueError: unpack of empty one-byte read"
  | instrByte :: ir0 => do
    if instrByte % 64 ≠ 0 then
      throw "AssertionError: instruction low six bits set"
    let (copy, ir1) ← readInt ir0
    let op := instrByte / 64
    if op = 0 then do
      let (off, ir2) ← readInt ir1
      if off ≠ 0 then throw "AssertionError: copy offset is not zero"
      match source with
      | none => throw "TypeError: source is None"
      | some src => do
        if ir2 ≠ [] then throw "AssertionError: trailing instruction data"
        if rest6 ≠ [] then throw "AssertionError: trailing delta data"
        return src.take copy
    else if op = 2 then do
      if copy ≠ dataLen then
        throw "AssertionError: copy differs from new data length"
      let tgt := rest6.take copy
      let rest7 := rest6.drop copy
      if tgt.length ≠ copy then throw "AssertionError: new data truncated"
      if ir1 ≠ [] then throw "AssertionError: trailing instruction data"
      if rest7 ≠ [] then throw "AssertionError: trailing delta data"
      return tgt
    else throw "AssertionError: instruction is neither SOURCE nor NEW"

/-- Modelled from the spec: the general svndiff0 decoder of section 4.E,
used only as the reference notion of a well-formed delta.  Per window it
reads source_offset, source_length, target_length, instructions_length and
new_data_length as varints, then interprets the instruction stream: the
top two bits of each instruction byte select COPY_FROM_SOURCE,
COPY_FROM_TARGET or COPY_FROM_NEW, the low six bits give the copy length
or, when zero, the length comes from a following varint, SOURCE and TARGET
carry an offset varint, and NEW consumes the new data cursor. -/
def svndiff0WindowInstrs (src win newData : List Nat) :
    Nat → List Nat → Nat → Option (List Nat × Nat)
  | 0, _, _ => none
  | _ + 1, [], newPos => some ([], newPos)
  | fuel + 1, b :: ir, newPos =>
      let op := b / 64
      let lowLen := b % 64
      let step := fun (len : Nat) (ir2 : List Nat) =>
        if op = 0 then
          match readInt ir2 with
          | .ok (off, ir3) =>
              match svndiff0WindowInstrs src win newData fuel ir3 newPos with
              | some (tail, np) =>
                  some (((src.drop off).take len) ++ tail, np)
              | none => none
          | .error _ => none
        else if op = 1 then
          match readInt ir2 with
          | .ok (off, ir3) =>
              match svndiff0WindowInstrs src win newData fuel ir3 newPos with
              | some (tail, np) => some (((win.drop off).take len) ++ tail, np)
              | none => none
          | .error _ => none
        else if op = 2 then
          match svndiff0WindowInstrs src win newData fuel ir2 (newPos + len) with
          | some (tail, np) => some (((newData.drop newPos).take len) ++ tail, np)
          | none => none
        else none
      if lowLen = 0 then
        match readInt ir with
        | .ok (len, ir2) => step len ir2
        | .error _ => none
      else step lowLen ir

/-- Modelled from the spec: the window loop of the general svndiff0
decoder.  Stops cleanly at the end of the stream; any malformed window
yields none. -/
def svndiff0Windows (src : List Nat) : Nat → List Nat → Option (List Nat)
  | 0, _ => none
  | fuel + 1, l =>
      if l = [] then some [] else
      match readInt l with
      | .error _ => none
      | .ok (srcOff, l1) =>
        match readInt l1 with
        | .error _ => none
        | .ok (srcLen, l2) =>
          match readInt l2 with
          | .error _ => none
          | .ok (tgtLen, l3) =>
            match readInt l3 with
            | .error _ => none
            | .ok (instrLen, l4) =>
              match readInt l4 with
              | .error _ => none
              | .ok (dataLen, l5) =>
                let instrData := l5.take instrLen
                let l6 := l5.drop instrLen
                let newData := l6.take dataLen
                let l7 := l6.drop dataLen
                if instrData.length = instrLen ∧ newData.length = dataLen then
                  let window := (src.drop srcOff).take srcLen
                  match svndiff0WindowInstrs window window newData
                      (instrData.length + 1) instrData 0 with
                  | some (tgt, _) =>
                      if tgt.length = tgtLen then
                        match svndiff0Windows src fuel l7 with
                        | some tail => some (tgt ++ tail)
                        | none => none
                      else none
                  | none => none
                else none

/-- Modelled from the spec: applying a whole svndiff0 delta, magic then
windows, against a source buffer. -/
def svndiff0ApplySpec (src deltaBytes : List Nat) : Option (List Nat) :=
  if deltaBytes.take 4 = [0x53, 0x56, 0x4E, 0x00] then
    svndiff0Windows src (deltaBytes.length + 1) (deltaBytes.drop 4)
  else none

/-- Base-128 varint encoding with continuation bits, most significant
group first: the inverse of read_int, used to state theorems about
well-formed deltas. -/
def encodeVarintGo : Nat → Nat → List Nat → List Nat
  | 0, _, acc => acc
  | fuel + 1, m, acc =>
      if m = 0 then acc else encodeVarintGo fuel (m / 128) ((m % 128 + 128) :: acc)

/-- Base-128 big-endian varint encoding of a natural number. -/
def encodeVarint (n : Nat) : List Nat :=
  encodeVarintGo n (n / 128) [n % 128]

/-! RevisionSet (src/svnex.py lines 513-546).  A mapping branch path to a
list of (start, end, inheritable) triples.  bisect_left is Python's binary
search; on the sorted lists maintained by this class it returns the first
index whose element is not below the probe, which is the length of the
maximal prefix of elements below the probe, the form used here. -/

/-- Python tuple comparison on (Int, Int, Bool) triples, with False below
True, as bisect_left applies it to range triples. -/
def rangeLt (a b : Int × Int × Bool) : Bool :=
  if a.1 < b.1 then true else if b.1 < a.1 then false
  else if a.2.1 < b.2.1 then true else if b.2.1 < a.2.1 then false
  else !a.2.2 && b.2.2

/-- bisect_left over a range list: the first index whose element is not
below the probe (on sorted lists, exactly Python bisect.bisect_left). -/
def bisectLeftRanges (l : List (Int × Int × Bool)) (probe : Int × Int × Bool) : Nat :=
  (l.takeWhile (fun r => rangeLt r probe)).length

/-- RevisionSet.add_segment on one branch's range list, src/svnex.py lines
521-540: locate the insertion point, coalesce with the left neighbor iff
its end plus one reaches start, coalesce with the right neighbor iff its
start is at most the (possibly updated) end plus one, and splice a single
merged triple over positions starti..stopi. -/
def addSegmentList (ranges : List (Int × Int × Bool)) (s e : Int) :
    List (Int × Int × Bool) :=
  let i := bisectLeftRanges ranges (s, 0, true)
  let left :=
    if i = 0 then (s, e, i)
    else match ranges.get? (i - 1) with
      | some (rs, re, _) => if re + 1 ≥ s then (rs, max e re, i - 1) else (s, e, i)
      | none => (s, e, i)
  match left with
  | (s1, e1, starti) =>
    let right :=
      match ranges.get? i with
      | some (rs, re, _) => if rs ≤ e1 + 1 then (max e1 re, i + 1) else (e1, i)
      | none => (e1, i)
    match right with
    | (e2, stopi) => ranges.take starti ++ [(s1, e2, true)] ++ ranges.drop stopi

/-- One branch's range list of a RevisionSet. -/
abbrev RangeList := List (Int × Int × Bool)

/-- A RevisionSet as an association list branch path to range list
(Python defaultdict of lists; key order is irrelevant to every use). -/
abbrev RevSet := List (String × RangeList)

/-- Lookup in a RevisionSet with the defaultdict empty-list default. -/
def rsGetD (m : RevSet) (k : String) : RangeList :=
  match m.find? (fun p => p.1 == k) with
  | some p => p.2
  | none => []

/-- Store of a branch's range list, replacing an existing entry. -/
def rsSet (m : RevSet) (k : String) (v : RangeList) : RevSet :=
  match m with
  | [] => [(k, v)]
  | p :: rest => if p.1 == k then (k, v) :: rest else p :: rsSet rest k v

/-- RevisionSet.add_segment at the mapping level. -/
def rsAddSegment (m : RevSet) (branch : String) (s e : Int) : RevSet :=
  rsSet m branch (addSegmentList (rsGetD m branch) s e)

/-- A single range is well formed when its start is at most its end. -/
def rangeWFB (r : Int × Int × Bool) : Bool := r.1 ≤ r.2.1

/-- Adjacent ranges neither overlap nor abut: each end plus one is below
the next start. -/
def adjacentOKB : List (Int × Int × Bool) → Bool
  | [] => true
  | [_] => true
  | a :: b :: rest => (decide (a.2.1 + 1 < b.1)) && adjacentOKB (b :: rest)

/-- The RevisionSet range-list invariant of the spec: every range well
formed, the list sorted with no two ranges overlapping or abutting. -/
def rsInvB (l : List (Int × Int × Bool)) : Bool :=
  l.all rangeWFB && adjacentOKB l

/-! Known-Branch Index (component B): branch path mapped to (starts, runs),
seeded in Exporter.__init__ (src/svnex.py lines 133-145), updated by the
remember block of Exporter.export (lines 217-225) and consulted by
PendingSegments (lines 436-455).  Git references inside runs are optional
strings because the exporter records the current gitrev, which can be
None. -/

/-- One branch's (starts, runs) pair. -/
abbrev KnownEntry := List Int × List (List (Option String))

/-- The Known-Branch Index. -/
abbrev KnownIdx := List (String × KnownEntry)

/-- Lookup with the defaultdict default of two empty lists. -/
def knownGetD (m : KnownIdx) (k : String) : KnownEntry :=
  match m.find? (fun p => p.1 == k) with
  | some p => p.2
  | none => ([], [])

/-- Store of a branch's entry, replacing an existing one. -/
def knownSet (m : KnownIdx) (k : String) (v : KnownEntry) : KnownIdx :=
  match m with
  | [] => [(k, v)]
  | p :: rest => if p.1 == k then (k, v) :: rest else p :: knownSet rest k v

/-- bisect_right over an integer list: the first index whose element is
above the probe (on sorted lists, exactly Python bisect.bisect_right). -/
def bisectRightInt (l : List Int) (x : Int) : Nat :=
  (l.takeWhile (fun y => y ≤ x)).length

/-- bisect_left over an integer list: the first index whose element is not
below the probe (on sorted lists, exactly Python bisect.bisect_left). -/
def bisectLeftInt (l : List Int) (x : Int) : Nat :=
  (l.takeWhile (fun y => y < x)).length

/-- The remember block of Exporter.export, src/svnex.py lines 217-225:
locate base_rev by bisect_left on the branch's starts; when the preceding
run ends exactly at the revision before, append the gitrev to that run,
else insert a new one-element run.  Accessing runs shorter than starts
raises IndexError, as indexing would in Python. -/
def rememberRevision (known : KnownIdx) (branch : String) (rev : Int)
    (g : Option String) : Except String KnownIdx :=
  let entry := knownGetD known branch
  let starts := entry.1
  let runs := entry.2
  let i := bisectLeftInt starts rev
  if i = 0 then
    .ok (knownSet known branch
      (starts.take i ++ [rev] ++ starts.drop i, runs.take i ++ [[g]] ++ runs.drop i))
  else
    match starts.get? (i - 1), runs.get? (i - 1) with
    | some s, some run =>
        if s + (run.length : Int) = rev then
          .ok (knownSet known branch (starts, runs.set (i - 1) (run ++ [g])))
        else
          .ok (knownSet known branch
            (starts.take i ++ [rev] ++ starts.drop i,
             runs.take i ++ [[g]] ++ runs.drop i))
    | _, _ => .error "IndexError: runs shorter than starts"

/-- The lookup the index supports (spec section 4.B): find the run whose
interval covers the revision and return the Git reference recorded for
it.  Used to state coverage properties about rememberRevision. -/
def knownLookup (known : KnownIdx) (branch : String) (rev : Int) :
    Option (Option String) :=
  let entry := knownGetD known branch
  let starts := entry.1
  let runs := entry.2
  let j := bisectRightInt starts rev
  if j = 0 then none
  else match starts.get? (j - 1), runs.get? (j - 1) with
    | some s, some run =>
        if rev < s + (run.length : Int) then run.get? (rev - s).toNat else none
    | _, _ => none

/-- Grouping loop of Exporter.__init__, src/svnex.py lines 137-145: the
sorted (svnrev, gitrev) pairs of one branch are split into maximal
contiguous runs.  The running run is flushed whenever a gap starts a new
one, and once more at the end. -/
def seedGroup : List (Int × String) → Option Int → List (Option String) →
    KnownEntry → KnownEntry
  | [], startOpt, curRun, (starts, runs) =>
      if startOpt.isSome then (starts, runs ++ [curRun]) else (starts, runs)
  | (svnrev, gitrev) :: rest, startOpt, curRun, (starts, runs) =>
      if some (svnrev - (curRun.length : Int)) ≠ startOpt then
        let runs2 := if startOpt.isSome then runs ++ [curRun] else runs
        seedGroup rest (some svnrev) [some gitrev] (starts ++ [svnrev], runs2)
      else
        seedGroup rest startOpt (curRun ++ [some gitrev]) (starts, runs)

/-- Insertion of a pair into a list sorted by revision. -/
def insertSortedRev (p : Int × String) : List (Int × String) → List (Int × String)
  | [] => [p]
  | q :: rest => if p.1 ≤ q.1 then p :: q :: rest else q :: insertSortedRev p rest

/-- Python sorted() over a revision map's items (unique keys, so stability
is immaterial). -/
def sortByRev (l : List (Int × String)) : List (Int × String) :=
  l.foldr insertSortedRev []

/-- Seeding of the Known-Branch Index from the parsed revision map,
src/svnex.py lines 133-145. -/
def seedKnown (revMap : List (String × List (Int × String))) : KnownIdx :=
  revMap.foldl (fun known p =>
    let b := lstripSlash p.1
    knownSet known b (seedGroup (sortByRev p.2) none [] (knownGetD known b))) []

/-! The Pending-Segment Planner, src/svnex.py lines 428-462.  The
constructor loop consumes location segments youngest to oldest; the
result records the plan (in discovery order), the resume anchor
(base, path) with its default (0, empty), and git_base when it was
assigned.  Iteration over a PendingSegments object is reversed(segments),
so the exporter consumes the plan oldest to youngest. -/

/-- Result of the PendingSegments constructor. -/
structure PendResult where
  segments : List (Int × Int × String)
  base : Int × String
  gitBase : Option (Option String)
deriving DecidableEq, Repr

/-- Constructor loop of PendingSegments: for each (start, end, path) look
the path up in the Known-Branch Index; when the candidate run (the last
run starting at or before end) ends at base with base at least start, the
scan stops, appending (base, end, path) only when base is below end and
recording the anchor and git_base; otherwise (base, end, path) is all
new: append (start - 1, end, path) and continue. -/
def pendingGo (known : KnownIdx) : List (Int × Int × String) →
    List (Int × Int × String) → Except String PendResult
  | [], acc => .ok ⟨acc, (0, ""), none⟩
  | (start, endR, path) :: rest, acc =>
      let entry := knownGetD known path
      let kstarts := entry.1
      let runs := entry.2
      let i := bisectRightInt kstarts endR
      if i = 0 then pendingGo known rest (acc ++ [(start - 1, endR, path)])
      else
        match kstarts.get? (i - 1), runs.get? (i - 1) with
        | some ks, some run =>
            let base := ks + (run.length : Int) - 1
            if base ≥ start then
              match run.getLast? with
              | some g =>
                  .ok ⟨if base < endR then acc ++ [(base, endR, path)] else acc,
                       (base, path), some g⟩
              | none => .error "IndexError: run[-1] on an empty run"
            else pendingGo known rest (acc ++ [(start - 1, endR, path)])
        | _, _ => .error "IndexError: runs shorter than starts"

/-- Iteration order of a PendingSegments object: reversed(segments), so
oldest to youngest (src/svnex.py lines 461-462). -/
def pendingIterate (r : PendResult) : List (Int × Int × String) :=
  r.segments.reverse

/-! MD5 (RFC 1321), used by Exporter.commit to check Text-delta-base-md5
and Text-content-md5 headers.  Machine words are naturals kept below 2^32
by explicit reduction. -/

/-- The 64 sine-derived MD5 constants. -/
def md5K : List Nat :=
  [0xd76aa478, 0xe8c7b756, 0x242070db, 0xc1bdceee,
   0xf57c0faf, 0x4787c62a, 0xa8304613, 0xfd469501,
   0x698098d8, 0x8b44f7af, 0xffff5bb1, 0x895cd7be,
   0x6b901122, 0xfd987193, 0xa679438e, 0x49b40821,
   0xf61e2562, 0xc040b340, 0x265e5a51, 0xe9b6c7aa,
   0xd62f105d, 0x02441453, 0xd8a1e681, 0xe7d3fbc8,
   0x21e1cde6, 0xc33707d6, 0xf4d50d87, 0x455a14ed,
   0xa9e3e905, 0xfcefa3f8, 0x676f02d9, 0x8d2a4c8a,
   0xfffa3942, 0x8771f681, 0x6d9d6122, 0xfde5380c,
   0xa4beea44, 0x4bdecfa9, 0xf6bb4b60, 0xbebfbc70,
   0x289b7ec6, 0xeaa127fa, 0xd4ef3085, 0x04881d05,
   0xd9d4d039, 0xe6db99e5, 0x1fa27cf8, 0xc4ac5665,
   0xf4292244, 0x432aff97, 0xab9423a7, 0xfc93a039,
   0x655b59c3, 0x8f0ccc92, 0xffeff47d, 0x85845dd1,
   0x6fa87e4f, 0xfe2ce6e0, 0xa3014314, 0x4e0811a1,
   0xf7537e82, 0xbd3af235, 0x2ad7d2bb, 0xeb86d391]

/-- The per-round left-rotation amounts of MD5. -/
def md5S : List Nat :=
  [7, 12, 17, 22, 7, 12, 17, 22, 7, 12, 17, 22, 7, 12, 17, 22,
   5, 9, 14, 20, 5, 9, 14, 20, 5, 9, 14, 20, 5, 9, 14, 20,
   4, 11, 16, 23, 4, 11, 16, 23, 4, 11, 16, 23, 4, 11, 16, 23,
   6, 10, 15, 21, 6, 10, 15, 21, 6, 10, 15, 21, 6, 10, 15, 21]

/-- Bitwise complement on 32-bit words represented as naturals. -/
def w32Not (x : Nat) : Nat := 2 ^ 32 - 1 - x % 2 ^ 32

/-- Left rotation on 32-bit words. -/
def w32Rotl (x s : Nat) : Nat :=
  (x % 2 ^ 32) * 2 ^ s % 2 ^ 32 + x % 2 ^ 32 / 2 ^ (32 - s)

/-- The MD5 round function and message-word index for round i. -/
def md5FG (i b c d : Nat) : Nat × Nat :=
  if i < 16 then ((b &&& c) ||| (w32Not b &&& d), i)
  else if i < 32 then ((d &&& b) ||| (w32Not d &&& c), (5 * i + 1) % 16)
  else if i < 48 then (b ^^^ c ^^^ d, (3 * i + 5) % 16)
  else (c ^^^ (b ||| w32Not d), (7 * i) % 16)

/-- Little-endian 32-bit word number g of a 64-byte chunk. -/
def md5Word (chunk : List Nat) (g : Nat) : Nat :=
  chunk.getD (g * 4) 0 + chunk.getD (g * 4 + 1) 0 * 256 +
    chunk.getD (g * 4 + 2) 0 * 65536 + chunk.getD (g * 4 + 3) 0 * 16777216

/-- One chunk's 64 rounds folded over the running (a, b, c, d) state. -/
def md5Rounds (chunk : List Nat) (st : Nat × Nat × Nat × Nat) :
    Nat × Nat × Nat × Nat :=
  (List.range 64).foldl (fun q i =>
    match q with
    | (a, b, c, d) =>
      match md5FG i b c d with
      | (f, g) =>
        let tmp := (f + a + md5K.getD i 0 + md5Word chunk g) % 2 ^ 32
        (d, (b + w32Rotl tmp (md5S.getD i 0)) % 2 ^ 32, b, c)) st

/-- Fold of every 64-byte chunk of the padded message. -/
def md5Chunks : List Nat → Nat × Nat × Nat × Nat → Nat × Nat × Nat × Nat
  | [], st => st
  | hd :: tl, st =>
      let chunk := (hd :: tl).take 64
      let rest := tl.drop 63
      match md5Rounds chunk st, st with
      | (a, b, c, d), (a0, b0, c0, d0) =>
          md5Chunks rest
            ((a0 + a) % 2 ^ 32, (b0 + b) % 2 ^ 32, (c0 + c) % 2 ^ 32,
             (d0 + d) % 2 ^ 32)
termination_by l _ => l.length
decreasing_by simp [List.length_drop]; omega

/-- MD5 padding: a one bit, zeros to 56 modulo 64, then the bit length as
a little-endian 64-bit number. -/
def md5Pad (msg : List Nat) : List Nat :=
  let padLen := (119 - msg.length % 64) % 64 + 1
  let bitLen := msg.length * 8
  msg ++ (128 :: List.replicate (padLen - 1) 0) ++
    (List.range 8).map (fun i => bitLen / 2 ^ (8 * i) % 256)

/-- A byte as two lowercase hexadecimal characters. -/
def hexByte (b : Nat) : List Char := [Nat.digitChar (b / 16), Nat.digitChar (b % 16)]

/-- hashlib.md5(data).hexdigest(): the 16 digest bytes, each word emitted
little endian, in lowercase hexadecimal. -/
def md5Hex (msg : List Nat) : String :=
  match md5Chunks (md5Pad msg) (0x67452301, 0xefcdab89, 0x98badcfe, 0x10325476) with
  | (a, b, c, d) =>
    String.mk (([a, b, c, d].foldr (fun w acc =>
      (List.range 4).map (fun i => w / 2 ^ (8 * i) % 256) ++ acc) []).foldr
        (fun b acc => hexByte b ++ acc) [])

/-! Data model of the two input streams.  The log is the ElementTree parse
of the svn log XML that Exporter.__init__ reads from stdin: one entry per
revision carrying the revision attribute, the optional author and date
texts and the optional paths element.  The dump is a list of records as
the spec describes the record reader delivering them. -/

/-- One path element of a logentry: its text and the action and copyfrom
attributes, each optional exactly as ElementTree get returns them. -/
structure PathElem where
  text : String
  action : Option String
  copyfromPath : Option String
  copyfromRev : Option String
deriving DecidableEq, Repr

/-- One logentry element. -/
structure LogEntry where
  revision : Int
  author : Option String
  date : Option String
  paths : Option (List PathElem)
deriving DecidableEq, Repr

/-- One dump record: RFC-822 style headers and the body bytes. -/
structure DumpRecord where
  headers : List (String × String)
  content : List Nat
deriving DecidableEq, Repr

/-- Modelled from the spec: read_record, the dump-file lexical parser
(imported by src/svnex.py from a module whose definition is not in the
repository), yields the next (headers, body) record of the dump stream;
reading past the end fails. -/
def readDumpRecord : List DumpRecord → Except String (DumpRecord × List DumpRecord)
  | [] => .error "EOFError: read_record at end of dump"
  | r :: rest => .ok (r, rest)

/-- email.message.Message.get_all: every value stored under the (case
insensitively matched) name, in order, or None when there is none. -/
def hGetAll (h : List (String × String)) (name : String) : Option (List String) :=
  let v := h.filterMap (fun p =>
    if lowerStr p.1 == lowerStr name then some p.2 else none)
  if v.isEmpty then none else some v

/-- email.message.Message.get: the first value stored under the name. -/
def hGet (h : List (String × String)) (name : String) : Option String :=
  (hGetAll h name).bind List.head?

/-- email.message.Message.keys: every header name as stored. -/
def hKeys (h : List (String × String)) : List String := h.map Prod.fst

/-- Membership test, name in message. -/
def hHas (h : List (String × String)) (name : String) : Bool :=
  (hGetAll h name).isSome

/-- The path map built by ExportRevs: text mapped to the (action,
copyfrom-path, copyfrom-rev) attribute triple. -/
abbrev PathVal := Option String × Option String × Option String

/-- The per-revision changed-path dictionary, insertion ordered. -/
abbrev PathsDict := List (String × PathVal)

/-- Python dict assignment d[k] = v: replace in place or append. -/
def dictSet (d : PathsDict) (k : String) (v : PathVal) : PathsDict :=
  match d with
  | [] => [(k, v)]
  | p :: rest => if p.1 == k then (k, v) :: rest else p :: dictSet rest k v

/-- Python dict.get with a default. -/
def dictGetD (d : PathsDict) (k : String) (dflt : PathVal) : PathVal :=
  match d.find? (fun p => p.1 == k) with
  | some p => p.2
  | none => dflt

/-- Python dict.pop with one argument: the value and the dictionary
without the key, or a KeyError. -/
def dictPop (d : PathsDict) (k : String) : Except String (PathVal × PathsDict) :=
  match d with
  | [] => .error "KeyError: dict.pop"
  | p :: rest =>
      if p.1 == k then .ok (p.2, rest)
      else match dictPop rest k with
        | .ok (v, rest2) => .ok (v, p :: rest2)
        | .error e => .error e

/-- One item of the fast-import output stream: a printf line (written with
a trailing newline) or raw bytes (a blob body or a commit message).  The
byte stream the Python program writes is the concatenation of the UTF-8
encoding of each line plus newline and of each raw chunk. -/
inductive OutItem
  | line (s : String)
  | raw (b : List Nat)
deriving DecidableEq, Repr

/-- The rendered byte stream of an output trace. -/
def renderOutput (items : List OutItem) : List Nat :=
  items.foldr (fun it acc =>
    match it with
    | .line s => strBytes s ++ [10] ++ acc
    | .raw b => b ++ acc) []

/-- The full mutable state of one Exporter run together with its sink:
the parsed log, the remaining dump records and the staged record
(self._header and self._content), the configuration fields of
Exporter.__init__, the Known-Branch Index, and the FastExportFile sink
(mark counter, per-path files entries, per-mark blob bytes, output
trace, current git ref). -/
structure ExpState where
  svnlog : List LogEntry
  dump : List DumpRecord
  staged : Option DumpRecord
  uuid : String
  authorMap : Option (List (String × String))
  root : String
  ignore : List String
  gitSvn : Bool
  exportCopies : Bool
  known : KnownIdx
  nextmark : Nat
  files : List (String × List (Option String))
  filedata : List (String × List Nat)
  output : List OutItem
  gitRef : String
deriving DecidableEq, Repr

/-- Result of a stateful step: a value or a raised exception, with the
state (including the output already written) in either case. -/
inductive PRes (α : Type)
  | ok (a : α) (st : ExpState)
  | err (e : String) (st : ExpState)
deriving DecidableEq, Repr

/-- The state-and-exception monad of the interpreter. -/
def EM (α : Type) : Type := ExpState → PRes α

instance : Monad EM where
  pure a := fun st => .ok a st
  bind m f := fun st =>
    match m st with
    | .ok a st2 => f a st2
    | .err e st2 => .err e st2

/-- Raising of a Python exception. -/
def emThrow {α : Type} (e : String) : EM α := fun st => .err e st

/-- The current state. -/
def emGet : EM ExpState := fun st => .ok st st

/-- State update. -/
def emModify (f : ExpState → ExpState) : EM Unit := fun st => .ok () (f st)

/-- Lift of a pure fallible computation. -/
def emLift {α : Type} (x : Except String α) : EM α := fun st =>
  match x with
  | .ok a => .ok a st
  | .error e => .err e st

/-- printf of the sink: one output line. -/
def emit (s : String) : EM Unit :=
  emModify (fun st => { st with output := st.output ++ [.line s] })

/-- A raw byte write to the sink. -/
def emitRaw (b : List Nat) : EM Unit :=
  emModify (fun st => { st with output := st.output ++ [.raw b] })

/-- Python assignment into the files dictionary (replace or append). -/
def filesSet (files : List (String × List (Option String))) (k : String)
    (v : List (Option String)) : List (String × List (Option String)) :=
  match files with
  | [] => [(k, v)]
  | p :: rest => if p.1 == k then (k, v) :: rest else p :: filesSet rest k v

/-- files.get of the sink. -/
def filesGet (files : List (String × List (Option String))) (k : String) :
    Option (List (Option String)) :=
  (files.find? (fun p => p.1 == k)).map (·.2)

/-- Assignment into the filedata dictionary of FastExportFile. -/
def filedataSet (fd : List (String × List Nat)) (k : String) (v : List Nat) :
    List (String × List Nat) :=
  match fd with
  | [] => [(k, v)]
  | p :: rest => if p.1 == k then (k, v) :: rest else p :: filedataSet rest k v

/-- FastExport.newmark, src/svnex.py lines 616-619: the mark string for
the current counter, which then increases. -/
def sinkNewMark : EM String := fun st =>
  .ok (":" ++ decRepr st.nextmark) { st with nextmark := st.nextmark + 1 }

/-- FastExport.blob_header, src/svnex.py lines 631-640: fetch the path's
entry with default (None, None); unpacking a stored one-element tuple into
two raises ValueError; a missing mark is allocated fresh and remembered as
the one-element tuple (mark,); then the blob, mark and data lines are
printed. -/
def sinkBlobHeader (p : String) (buf : List Nat) : EM String := do
  let st ← emGet
  let pair := (filesGet st.files p).getD [none, none]
  let markOpt ←
    match pair with
    | [a, _] => pure a
    | _ => emThrow "ValueError: cannot unpack files entry into two"
  let mark ←
    match markOpt with
    | some m => pure m
    | none => do
        let m ← sinkNewMark
        emModify (fun st2 => { st2 with files := filesSet st2.files p [some m] })
        pure m
  emit "blob"
  emit ("mark " ++ mark)
  emit ("data " ++ decRepr buf.length)
  pure mark

/-- FastExportFile.blob, src/svnex.py lines 655-662: seek to the end (a
no-op for this model), print the header, remember the bytes for cat_blob
under the mark, write the bytes and a blank line. -/
def sinkBlob (p : String) (buf : List Nat) : EM String := do
  let mark ← sinkBlobHeader p buf
  emModify (fun st => { st with filedata := filedataSet st.filedata mark buf })
  emitRaw buf
  emit ""
  pure mark

/-- FastExportFile.cat_blob, src/svnex.py lines 664-665: the bytes stored
under a mark. -/
def sinkCatBlob (mark : String) : EM (List Nat) := do
  let st ← emGet
  match st.filedata.find? (fun p => p.1 == mark) with
  | some p => pure p.2
  | none => emThrow "KeyError: cat_blob"

/-! parse_path of src/_common.py lines 88-93 and the date handling of
Exporter.commit (strptime with the subversion timestamp format, then the
integer UTC timestamp). -/

/-- Python str.split on the slash character (no maxsplit): an empty string
yields one empty piece. -/
def splitSlashGo : List Char → List Char → List String
  | [], cur => [String.mk cur.reverse]
  | '/' :: rest, cur => String.mk cur.reverse :: splitSlashGo rest []
  | c :: rest, cur => splitSlashGo rest (c :: cur)

/-- Python str.split("/"). -/
def splitSlash (s : String) : List String := splitSlashGo s.data []

/-- parse_path of src/_common.py: the root path is the empty tuple; other
paths must begin with a slash and not end with one, and split into their
segments. -/
def parsePath (path : String) : Except String (List String) :=
  if path == "/" then .ok []
  else if ¬ pyStartsWith path "/" then
    .error "AssertionError: parse_path expects a leading slash"
  else if path.data.getLast? == some '/' then
    .error "AssertionError: parse_path rejects a trailing slash"
  else .ok (splitSlash (pyDropChars path 1))

/-- Exactly n decimal digits from the front of a character list. -/
def chunkDigits (n : Nat) (cs : List Char) : Option (Nat × List Char) :=
  let pre := cs.take n
  if pre.length = n ∧ pre.all Char.isDigit then
    match parseDigits pre with
    | some v => some (v, cs.drop n)
    | none => none
  else none

/-- Days since 1970-01-01 of a proleptic Gregorian civil date (the
standard era-based algorithm, using floor division). -/
def daysFromCivil (y m d : Int) : Int :=
  let y2 := if m ≤ 2 then y - 1 else y
  let era := y2 / 400
  let yoe := y2 - era * 400
  let mp := (m + 9) % 12
  let doy := (153 * mp + 2) / 5 + d - 1
  let doe := yoe * 365 + yoe / 4 - yoe / 100 + doy
  era * 146097 + doe - 719468

/-- datetime.strptime with format %Y-%m-%dT%H:%M:%S.%fZ followed by the
integer UTC timestamp, as Exporter.commit computes it (src/svnex.py lines
393-394).  Subversion writes the canonical widths, which is what is
modelled; int() truncates the fractional timestamp toward zero. -/
def parseSvnDate (s : String) : Except String Int := do
  let cs := s.data
  match chunkDigits 4 cs with
  | none => throw "ValueError: time data does not match format"
  | some (y, cs) =>
  match cs with
  | '-' :: cs =>
    match chunkDigits 2 cs with
    | none => throw "ValueError: time data does not match format"
    | some (mo, cs) =>
    match cs with
    | '-' :: cs =>
      match chunkDigits 2 cs with
      | none => throw "ValueError: time data does not match format"
      | some (d, cs) =>
      match cs with
      | 'T' :: cs =>
        match chunkDigits 2 cs with
        | none => throw "ValueError: time data does not match format"
        | some (h, cs) =>
        match cs with
        | ':' :: cs =>
          match chunkDigits 2 cs with
          | none => throw "ValueError: time data does not match format"
          | some (mi, cs) =>
          match cs with
          | ':' :: cs =>
            match chunkDigits 2 cs with
            | none => throw "ValueError: time data does not match format"
            | some (sec, cs) =>
            match cs with
            | '.' :: cs =>
              let usDigits := cs.takeWhile Char.isDigit
              let cs2 := cs.dropWhile Char.isDigit
              if usDigits.length = 0 ∨ usDigits.length > 6 then
                throw "ValueError: time data does not match format"
              else
              match cs2 with
              | ['Z'] =>
                if 1 ≤ mo ∧ mo ≤ 12 ∧ 1 ≤ d ∧ d ≤ 31 ∧ h ≤ 23 ∧ mi ≤ 59 ∧ sec ≤ 61 then
                  let us := (parseDigits usDigits).getD 0
                  let secs := daysFromCivil (y : Int) (mo : Int) (d : Int) * 86400 +
                    (h : Int) * 3600 + (mi : Int) * 60 + (sec : Int)
                  .ok (if secs < 0 ∧ us > 0 then secs + 1 else secs)
                else throw "ValueError: time data does not match format"
              | _ => throw "ValueError: time data does not match format"
            | _ => throw "ValueError: time data does not match format"
          | _ => throw "ValueError: time data does not match format"
        | _ => throw "ValueError: time data does not match format"
      | _ => throw "ValueError: time data does not match format"
    | _ => throw "ValueError: time data does not match format"
  | _ => throw "ValueError: time data does not match format"

/-! iter_location_segments, src/svnex.py lines 571-602: scan log entries in
document order (youngest first) from the peg revision down, find the
youngest entry naming the branch path exactly, assert it is a plain add
without copyfrom, and yield the single segment (entry_rev, rev, path); a
missing location is a LookupError unless the path is the root, which
yields (0, rev, path). -/

/-- Inner loop over one entry's path elements: note the first exact match
and raise if a second one occurs. -/
def ilsFindInPaths (path : String) : List PathElem → Option PathElem →
    Except String (Option PathElem)
  | [], found => .ok found
  | p :: rest, found =>
      if lstripSlash p.text == path then
        match found with
        | some _ => .error "AssertionError: duplicate exact path in one entry"
        | none => ilsFindInPaths path rest (some p)
      else ilsFindInPaths path rest found

/-- Outer loop of iter_location_segments: entry_rev tracks the revision of
the latest entry looked at, rev is pinned to the first entry when the peg
was None, entries above rev or without paths are skipped, and the scan
stops at the first exact mention. -/
def ilsGo (path : String) : List LogEntry → Option Int → Int →
    Except String (Option PathElem × Int × Option Int)
  | [], revOpt, entryRev => .ok (none, entryRev, revOpt)
  | e :: rest, revOpt, _entryRev =>
      let er := e.revision
      let r := revOpt.getD er
      if er > r then ilsGo path rest (some r) er
      else match e.paths with
        | none => ilsGo path rest (some r) er
        | some ps =>
            match ilsFindInPaths path ps none with
            | .error msg => .error msg
            | .ok (some p) => .ok (some p, er, some r)
            | .ok none => ilsGo path rest (some r) er

/-- iter_location_segments of src/svnex.py, collected to a list (the
generator yields exactly once or raises). -/
def iterLocationSegments (log : List LogEntry) (path : String)
    (revArg : Option Int) : Except String (List (Int × Int × String)) := do
  match ilsGo path log revArg 0 with
  | .error e => .error e
  | .ok (found, entryRev, revFinal) =>
    match found with
    | none =>
        if path == "" then
          match revFinal with
          | some r => .ok [(0, r, path)]
          | none => .error "TypeError: rev is still None on an empty log"
        else .error "LookupError: location not found"
    | some p =>
        if p.action ≠ some "A" then
          .error "AssertionError: branch creation entry action is not A"
        else if p.copyfromRev ≠ none then
          .error "AssertionError: branch creation entry has copyfrom-rev"
        else
          match revFinal with
          | some r => .ok [(entryRev, r, path)]
          | none => .error "TypeError: rev is still None"

/-! ExportRevs, src/svnex.py lines 472-511: iterate the log oldest first,
skipping revisions at or below the base, stopping beyond the end, and
yielding (rev, date, author, path_map) for every revision that touches the
branch prefix. -/

/-- The lazy any() over parse_path(p.text) prefixes: evaluation stops at
the first match, so a malformed later path text raises no error. -/
def exportRevsAnyMatch (pathTuple : List String) : List PathElem →
    Except String Bool
  | [] => .ok false
  | p :: rest => do
      let t ← parsePath p.text
      if t.take pathTuple.length == pathTuple then .ok true
      else exportRevsAnyMatch pathTuple rest

/-- The path_map dict built for a yielded revision. -/
def buildPathMap (ps : List PathElem) : PathsDict :=
  ps.foldl (fun d p => dictSet d p.text (p.action, p.copyfromPath, p.copyfromRev)) []

/-- The while-and-for loops of ExportRevs over the remaining oldest-first
entries.  next is the lowest revision still wanted. -/
def exportRevsGo (pathTuple : List String) (endR : Int) :
    Int → List LogEntry → Except String (List (Int × String × String × PathsDict))
  | _, [] => .ok []
  | next, e :: rest =>
      let r := e.revision
      if r < next then exportRevsGo pathTuple endR next rest
      else match e.paths with
        | none => exportRevsGo pathTuple endR next rest
        | some ps =>
          if r > endR then .ok []
          else do
            let m ← exportRevsAnyMatch pathTuple ps
            if m then do
              let author := e.author.getD "(no author)"
              let date ← match e.date with
                | some d => Except.ok d
                | none => Except.error "AttributeError: date element missing"
              let pm := buildPathMap ps
              let tail ←
                if r < endR then exportRevsGo pathTuple endR (r + 1) rest
                else Except.ok []
              .ok ((r, date, author, pm) :: tail)
            else exportRevsGo pathTuple endR next rest

/-- ExportRevs collected to the list of yielded tuples. -/
def exportRevsList (log : List LogEntry) (path : String) (base endR : Int) :
    Except String (List (Int × String × String × PathsDict)) := do
  let pt ← parsePath path
  let rev0 := max base 0
  if rev0 < endR then exportRevsGo pt endR (rev0 + 1) log.reverse
  else .ok []

/-! Exporter.commit, src/svnex.py lines 229-421, and Exporter.export,
lines 169-227, as state-passing functions.  Loops over the dump use fuel
bounded by the number of remaining records, which each iteration
consumes. -/

/-- The delete prescan of Exporter.commit, lines 235-243: for every
changed path under the prefix whose action is D or R and which no ignore
entry covers, the code calls delete_entry on the name dir, which is the
Python builtin, raising AttributeError. -/
def commitPrescan (pfx : String) (ignore : List String) :
    List (String × PathVal) → Except String Unit
  | [] => .ok ()
  | (file, av) :: rest =>
      if ¬ pyStartsWith file pfx then commitPrescan pfx ignore rest
      else match av.1 with
        | none => .error "TypeError: membership test of None in string"
        | some a =>
          if ¬ pyInStr a "DR" then commitPrescan pfx ignore rest
          else
            let f := pyDropChars file (pyStrLen pfx)
            if ignore.any (fun p => f == p || pyStartsWith f (lstripSlash (p ++ "/")))
            then commitPrescan pfx ignore rest
            else .error "AttributeError: delete_entry on the builtin dir"

/-- One read_record step honouring the staged record (self._header and
self._content). -/
def takeRecord : EM DumpRecord := do
  let st ← emGet
  match st.staged with
  | some r => do
      emModify (fun s => { s with staged := none })
      pure r
  | none => do
      let st2 ← emGet
      let pr ← emLift (readDumpRecord st2.dump)
      emModify (fun s => { s with dump := pr.2 })
      pure pr.1

/-- The revision-record scan of Exporter.commit, lines 245-263: read
records, tolerating one concatenated dump header pair, skipping node
records, until the revision number reaches rev; a mismatch raises
LookupError.  Returns the revision record's body (the property block). -/
def commitFindRev (rev : Int) : Nat → EM (List Nat)
  | 0 => emThrow "RuntimeError: fuel exhausted scanning for the revision"
  | fuel + 1 => do
      let r0 ← takeRecord
      let r1 ←
        if r0.headers == [("SVN-fs-dump-format-version", "3")] then do
          let st ← emGet
          let pr ← emLift (readDumpRecord st.dump)
          emModify (fun s => { s with dump := pr.2 })
          if pr.1.headers == [("UUID", st.uuid)] then pure () else
            emThrow "AssertionError: inner UUID differs"
          let st2 ← emGet
          let pr2 ← emLift (readDumpRecord st2.dump)
          emModify (fun s => { s with dump := pr2.2 })
          pure pr2.1
        else pure r0
      if hHas r1.headers "Node-path" then commitFindRev rev fuel
      else do
        let rstr ←
          match hGet r1.headers "Revision-number" with
          | some v => pure v
          | none => emThrow "TypeError: int of missing Revision-number"
        let r ← emLift (pyInt rstr)
        if r ≥ rev then
          if r ≠ rev then emThrow "LookupError: revision not found in dump file"
          else pure r1.content
        else commitFindRev rev fuel

/-- The revision property block parser of Exporter.commit, lines 265-278:
K and V records, remembering svn:log, terminated by PROPS-END. -/
def parseRevProps : Nat → List Nat → Option String → Except String (Option String)
  | 0, _, _ => .error "RuntimeError: fuel exhausted in the property block"
  | fuel + 1, revprops, logAcc =>
      if ¬ bytesStartsWithAt revprops [75, 32] 0 then
        if revprops = strBytes "PROPS-END" ++ [10] then .ok logAcc
        else .error "AssertionError: property block does not end with PROPS-END"
      else
        match splitOnceNL (revprops.drop 2) with
        | none => .error "ValueError: cannot unpack key length"
        | some (lenBytes, rest) =>
          match pyIntBytes lenBytes with
          | .error e => .error e
          | .ok len =>
            let name := rest.take len
            if ¬ bytesStartsWithAt rest (strBytes "\nV ") len then
              .error "AssertionError: V marker missing"
            else
              match splitOnceNL (rest.drop (len + 3)) with
              | none => .error "ValueError: cannot unpack value length"
              | some (lenBytes2, rest2) =>
                match pyIntBytes lenBytes2 with
                | .error e => .error e
                | .ok len2 =>
                  let step : Except String (Option String) :=
                    if name = strBytes "svn:log" then
                      match decodeAscii (rest2.take len2) with
                      | .ok s => .ok (some s)
                      | .error e => .error e
                    else .ok logAcc
                  match step with
                  | .error e => .error e
                  | .ok logAcc2 =>
                    if ¬ bytesStartsWithAt rest2 [10] len2 then
                      .error "AssertionError: newline after the value missing"
                    else parseRevProps fuel (rest2.drop (len2 + 1)) logAcc2

/-- The header names a node record may carry (the frozenset of
Exporter.commit lines 295-301). -/
def nodeAllowedKeys : List String :=
  ["Node-path", "Node-kind", "Node-action",
   "Node-copyfrom-path", "Node-copyfrom-rev", "Prop-delta",
   "Text-delta", "Text-delta-base-md5", "Text-content-md5",
   "Prop-content-length", "Text-content-length", "Content-length"]

/-- Python frozenset(keys) strictly below the allowed set. -/
def nodeKeysStrictSubset (ks : List String) : Bool :=
  ks.all (fun k => nodeAllowedKeys.contains k) &&
    nodeAllowedKeys.any (fun a => ¬ ks.contains a)

/-- The node-record loop of Exporter.commit, lines 284-358: read records
until one without Node-path (which stays staged for the next commit), pop
each node's path from the changed-path dict, discard nodes outside the
branch, verify the headers and actions, and for files compute the new
contents (literal body or svndiff0 delta with the MD5 checks), write the
blob, update the sink's file entry and append the M edit. -/
def commitNodes (pathS pfx : String) :
    Nat → PathsDict → List String → EM (PathsDict × List String)
  | 0, _, _ => emThrow "RuntimeError: fuel exhausted in the node loop"
  | fuel + 1, paths, edits => do
      let st0 ← emGet
      let pr ← emLift (readDumpRecord st0.dump)
      emModify (fun s => { s with dump := pr.2, staged := some pr.1 })
      let nrec := pr.1
      match hGetAll nrec.headers "Node-path" with
      | none => pure (paths, edits)
      | some ps => do
          let p0 ←
            match ps with
            | [x] => pure x
            | _ => emThrow "ValueError: cannot unpack Node-path"
          let p := "/" ++ p0
          let popped ← emLift (dictPop paths p)
          let av := popped.1
          let paths2 := popped.2
          let action := av.1
          let fromPath := av.2.1
          let fromRev := av.2.2
          if ¬ pyStartsWith p pfx ∧ p ≠ pathS then
            commitNodes pathS pfx fuel paths2 edits
          else do
            if ¬ nodeKeysStrictSubset (hKeys nrec.headers) then
              emThrow "AssertionError: unexpected node header"
            let mapped ←
              match hGet nrec.headers "Node-action" with
              | some "add" => pure "A"
              | some "change" => pure "M"
              | _ => emThrow "KeyError: Node-action not add or change"
            if action ≠ some mapped then
              emThrow "AssertionError: log action differs from the node action"
            if fromPath ≠ none ∨ fromRev ≠ none then
              emThrow "AssertionError: log copyfrom on a processed node"
            let kind ←
              match hGetAll nrec.headers "Node-kind" with
              | some [k] => pure k
              | some _ => emThrow "ValueError: cannot unpack Node-kind"
              | none => emThrow "TypeError: cannot unpack missing Node-kind"
            if kind == "dir" then do
              if action ≠ some "A" then
                emThrow "AssertionError: directory node action is not A"
              commitNodes pathS pfx fuel paths2 edits
            else do
              if kind ≠ "file" then emThrow "AssertionError: unknown node kind"
              let prel := pyDropChars p (pyStrLen pfx)
              let pcl ←
                match hGetAll nrec.headers "Prop-content-length" with
                | none => pure 0
                | some [v] => do
                    let n ← emLift (pyInt v)
                    if n < 0 then emThrow "ValueError: negative length" else
                    pure n.toNat
                | some _ => emThrow "ValueError: cannot unpack Prop-content-length"
              let target0 := nrec.content.drop pcl
              let target ←
                if hGet nrec.headers "Text-delta" == some "true" then do
                  let source ←
                    if action == some "M" then do
                      let stX ← emGet
                      let entry ←
                        match filesGet stX.files prel with
                        | some v => pure v
                        | none => emThrow "KeyError: no files entry for the path"
                      let srcMark ←
                        match entry with
                        | [a, _] => pure a
                        | _ => emThrow "ValueError: cannot unpack files entry into two"
                      let srcMarkS ←
                        match srcMark with
                        | some m => pure m
                        | none => emThrow "KeyError: cat_blob of None"
                      let src ← sinkCatBlob srcMarkS
                      let hash ←
                        match hGetAll nrec.headers "Text-delta-base-md5" with
                        | some [hsh] => pure hsh
                        | some _ => emThrow "ValueError: cannot unpack Text-delta-base-md5"
                        | none => emThrow "TypeError: cannot unpack missing Text-delta-base-md5"
                      if md5Hex src ≠ hash then
                        emThrow "AssertionError: delta base md5 differs"
                      pure (some src)
                    else pure none
                  let t ← emLift (applyTextDeltaCore source target0)
                  let hash2 ←
                    match hGetAll nrec.headers "Text-content-md5" with
                    | some [hsh] => pure hsh
                    | some _ => emThrow "ValueError: cannot unpack Text-content-md5"
                    | none => emThrow "TypeError: cannot unpack missing Text-content-md5"
                  if md5Hex t ≠ hash2 then
                    emThrow "AssertionError: content md5 differs"
                  pure t
                else pure target0
              let blob ← sinkBlob prel target
              emModify (fun s =>
                { s with files := filesSet s.files prel [some blob, some "644"] })
              commitNodes pathS pfx fuel paths2
                (edits ++ ["M 644 " ++ blob ++ " " ++ prel])

/-- The commit emission of Exporter.commit, lines 388-419: commit and mark
lines, committer from the parsed date and the author identity, the log
data (with the git-svn-id trailer when enabled), the guarded from line,
merge lines, edit lines and a blank line. -/
def commitEmit (rev : Int) (dateS author : String) (logOpt : Option String)
    (edits merges : List String) (initExport : Bool) (gitrev : Option String)
    (pathS : String) : EM String := do
  let st ← emGet
  emit ("commit " ++ st.gitRef)
  let mark ← sinkNewMark
  emit ("mark " ++ mark)
  let ts ← emLift (parseSvnDate dateS)
  let author2 ←
    match st.authorMap with
    | none => pure (author ++ " <" ++ author ++ "@" ++ st.uuid ++ ">")
    | some m =>
        match m.find? (fun q => q.1 == author) with
        | some q => pure q.2
        | none => emThrow "KeyError: author missing from the author map"
  emit ("committer " ++ author2 ++ " " ++ intRepr ts ++ " +0000")
  let log0 ←
    match logOpt with
    | some l => pure l
    | none => emThrow "NameError: name log is not defined"
  let log1 :=
    if st.gitSvn then
      log0 ++ "\n\ngit-svn-id: " ++ st.root ++ rstripSlash pathS ++ "@" ++
        intRepr rev ++ " " ++ st.uuid ++ "\n"
    else log0
  let logBytes := strBytes log1
  emit ("data " ++ decRepr logBytes.length)
  emitRaw logBytes
  emit ""
  if (initExport || merges ≠ []) && gitrev ≠ none then
    emit ("from " ++ optRepr gitrev)
  else pure ()
  merges.forM (fun a => emit ("merge " ++ a))
  edits.forM (fun l => emit l)
  emit ""
  pure mark

/-- Exporter.commit, lines 229-421.  The mergeinfo dict created at line
233 is never assigned to (the editor classes that would fill it are never
instantiated and PROP_MERGEINFO is undefined in the module), so the merge
block of lines 364-386 cannot run and merges stays empty; a commit with no
edits is skipped, returning None. -/
def exporterCommit (rev : Int) (dateS author : String) (paths : PathsDict)
    (initExport : Bool) (_baseRev : Int) (_basePath : String)
    (gitrev : Option String) (pathS pfx : String) : EM (Option String) := do
  let st0 ← emGet
  emLift (commitPrescan pfx st0.ignore paths)
  let revprops ← commitFindRev rev (st0.dump.length + 2)
  let logOpt ← emLift (parseRevProps (revprops.length + 1) revprops none)
  let st1 ← emGet
  if st1.ignore ≠ [] then emThrow "NameError: name reporter is not defined"
  else pure ()
  let st2 ← emGet
  let ne ← commitNodes pathS pfx (st2.dump.length + 1) paths []
  let pathsLeft := ne.1
  let edits := ne.2
  if edits.isEmpty then pure none
  else do
    if pathsLeft ≠ [] then emThrow "AssertionError: unconsumed changed paths"
    else pure ()
    let merges : List String := []
    let mark ← commitEmit rev dateS author logOpt edits merges initExport gitrev pathS
    pure (some mark)

/-- The per-revision body of the segment loop of Exporter.export, lines
184-225: the commit decision (export_copies, a change strictly below the
prefix, or the path itself changed without being a pure copy target),
then commit or the reset record, then the base bookkeeping and the
remember block. -/
def exportSegmentRevs (gitRef pathS pfx : String) :
    List (Int × String × String × PathsDict) →
    Bool → Int → String → Option String → EM (Bool × Int × String × Option String)
  | [], initExport, baseRev, basePath, gitrev =>
      pure (initExport, baseRev, basePath, gitrev)
  | (svnrev, dateS, author, pm) :: rest, initExport, baseRev, basePath, gitrev => do
      let st ← emGet
      let c0 := st.exportCopies
      let c1 := c0 || pm.any (fun kv => pyStartsWith kv.1 pfx && pyStrLt pfx kv.1)
      let commitFlag :=
        if c1 then true
        else (dictGetD pm pathS (none, none, none)).2.1 == none
      let upd ←
        if commitFlag then do
          let newMark ← exporterCommit svnrev dateS author pm initExport
            baseRev basePath gitrev pathS pfx
          match newMark with
          | some m => pure (false, some m)
          | none => pure (initExport, gitrev)
        else do
          emit ("reset " ++ gitRef)
          emit ("from " ++ optRepr gitrev)
          pure (initExport, gitrev)
      let init2 := upd.1
      let gitrev2 := upd.2
      let baseRev2 := svnrev
      let basePath2 := pyDropChars pathS 1
      let st2 ← emGet
      let known2 ← emLift (rememberRevision st2.known basePath2 baseRev2 gitrev2)
      emModify (fun s => { s with known := known2 })
      exportSegmentRevs gitRef pathS pfx rest init2 baseRev2 basePath2 gitrev2

/-- The segment loop of Exporter.export, lines 180-226. -/
def exportSegments (gitRef : String) :
    List (Int × Int × String) → Bool → Int → String → Option String →
    EM (Option String)
  | [], _, _, _, gitrev => pure gitrev
  | (base, endR, path) :: rest, initExport, baseRev, basePath, gitrev => do
      let pathS := "/" ++ path
      let pfx := rstripSlash pathS ++ "/"
      let st ← emGet
      let revs ← emLift (exportRevsList st.svnlog pathS base endR)
      let q ← exportSegmentRevs gitRef pathS pfx revs initExport baseRev basePath gitrev
      exportSegments gitRef rest q.1 q.2.1 q.2.2.1 q.2.2.2

/-- Exporter.export, src/svnex.py lines 169-227: build the pending plan,
take the inherited gitrev from the resume anchor, then run the plan oldest
to youngest and return the last gitrev. -/
def exporterExport (gitRef branch : String) (rev : Option Int) :
    EM (Option String) := do
  emModify (fun s => { s with gitRef := gitRef })
  let st ← emGet
  let segs ← emLift (iterLocationSegments st.svnlog branch rev)
  let pres ← emLift (pendingGo st.known segs [])
  let gitrev ←
    if pres.base.1 ≠ 0 then
      match pres.gitBase with
      | some g => pure g
      | none => emThrow "AttributeError: git_base was never assigned"
    else pure none
  exportSegments gitRef (pendingIterate pres) true pres.base.1 pres.base.2 gitrev

/-- Exporter.__init__, src/svnex.py lines 119-167: seed the Known-Branch
Index from the revision map, read the first and last log revisions (which
touches an empty log even in quiet mode), then consume the format-version
record and the UUID record of the dump. -/
def exporterInit (log : List LogEntry) (dump : List DumpRecord)
    (revMap : List (String × List (Int × String)))
    (authorMap : Option (List (String × String))) (root : String)
    (ignore : List String) (gitSvn exportCopies : Bool) :
    Except String ExpState := do
  let known := seedKnown revMap
  if log.isEmpty then throw "IndexError: list index out of range on the log"
  let pr1 ← readDumpRecord dump
  if hKeys pr1.1.headers ≠ ["SVN-fs-dump-format-version"] then
    throw "AssertionError: first dump record is not the format version"
  let pr2 ← readDumpRecord pr1.2
  let uuid ←
    match pr2.1.headers with
    | [(f, v)] =>
        if f == "UUID" then Except.ok v
        else Except.error "AssertionError: second dump record field is not UUID"
    | _ => Except.error "ValueError: cannot unpack the header items"
  .ok { svnlog := log, dump := pr2.2, staged := none, uuid := uuid,
        authorMap := authorMap, root := root, ignore := ignore,
        gitSvn := gitSvn, exportCopies := exportCopies, known := known,
        nextmark := 1, files := [], filedata := [], output := [], gitRef := "" }

/-- A blank state used only to report construction failures. -/
def emptyExpState : ExpState :=
  { svnlog := [], dump := [], staged := none, uuid := "", authorMap := none,
    root := "", ignore := [], gitSvn := false, exportCopies := false,
    known := [], nextmark := 1, files := [], filedata := [], output := [],
    gitRef := "" }

/-- A whole run: Exporter construction followed by one export call. -/
def runSvnex (log : List LogEntry) (dump : List DumpRecord)
    (revMap : List (String × List (Int × String)))
    (authorMap : Option (List (String × String))) (root : String)
    (ignore : List String) (gitSvn exportCopies : Bool)
    (gitRef branch : String) (rev : Option Int) : PRes (Option String) :=
  match exporterInit log dump revMap authorMap root ignore gitSvn exportCopies with
  | .ok st => exporterExport gitRef branch rev st
  | .error e => .err e emptyExpState

/-! Concrete scenario data, built exactly as the repository's own test
fixture (test_svnex.py make_repo and dump_message) builds dumps and logs:
each revision record carries the svn:date and svn:log properties, node
records carry the action, kind, path and copyfrom headers that are set,
and the log lists entries youngest first. -/

/-- The fixture timestamp. -/
def svnDate : String := "1970-01-01T00:00:00.000000Z"

/-- The fixture UUID. -/
def zeroUuid : String := "00000000-0000-0000-0000-000000000000"

/-- The property block bytes a dump_message props argument produces. -/
def mkProps (props : List (String × String)) : List Nat :=
  props.foldr (fun kv acc =>
    strBytes ("K " ++ decRepr (strBytes kv.1).length) ++ [10] ++
    strBytes kv.1 ++ [10] ++
    strBytes ("V " ++ decRepr (strBytes kv.2).length) ++ [10] ++
    strBytes kv.2 ++ [10] ++ acc) (strBytes "PROPS-END" ++ [10])

/-- A revision record with the fixture date and an empty log message. -/
def mkRevRecord (n : Nat) : DumpRecord :=
  let pb := mkProps [("svn:date", svnDate), ("svn:log", "")]
  { headers := [("Revision-number", decRepr n),
      ("Prop-content-length", decRepr pb.length),
      ("Content-length", decRepr pb.length)],
    content := pb }

/-- A node record as dump_message flattens one. -/
def mkNodeRecord (action : String) (kind : Option String) (path : String)
    (copyP : Option String) (copyR : Option Nat)
    (props : Option (List (String × String))) (content : Option (List Nat)) :
    DumpRecord :=
  let pb := match props with | some pp => mkProps pp | none => []
  let cb := match content with | some c => c | none => []
  let base := [("Node-action", action)] ++
    (match kind with | some k => [("Node-kind", k)] | none => []) ++
    [("Node-path", path)] ++
    (match copyP with | some q => [("Node-copyfrom-path", q)] | none => []) ++
    (match copyR with | some r => [("Node-copyfrom-rev", decRepr r)] | none => [])
  let lenHs :=
    (match props with
     | some _ => [("Prop-content-length", decRepr pb.length)]
     | none => []) ++
    (match content with
     | some c => [("Text-content-length", decRepr c.length)]
     | none => []) ++
    (match props, content with
     | none, none => []
     | _, _ => [("Content-length", decRepr (pb ++ cb).length)])
  { headers := base ++ lenHs, content := pb ++ cb }

/-- The version and UUID records opening every fixture dump. -/
def dumpHeaderRecords : List DumpRecord :=
  [{ headers := [("SVN-fs-dump-format-version", "2")], content := [] },
   { headers := [("UUID", zeroUuid)], content := [] }]

/-- A log path element without copyfrom attributes. -/
def mkPath (t a : String) : PathElem := ⟨t, some a, none, none⟩

/-- A log entry with the fixture date and no author. -/
def mkEntry (r : Int) (ps : List PathElem) : LogEntry :=
  ⟨r, none, some svnDate, some ps⟩

/-- The export-copies scenario log as the repository fixture writes it
(no copyfrom attributes): r1 adds trunk and trunk/file, r2 copies branch
from trunk, r3 modifies branch/file; entries youngest first. -/
def logExportCopies : List LogEntry :=
  [mkEntry 3 [mkPath "/branch/file" "M"],
   mkEntry 2 [mkPath "/branch" "A"],
   mkEntry 1 [mkPath "/trunk" "A", mkPath "/trunk/file" "A"]]

/-- The same log with the copyfrom attributes a real svn log carries on
the branch-copy entry. -/
def logExportCopiesMarked : List LogEntry :=
  [mkEntry 3 [mkPath "/branch/file" "M"],
   mkEntry 2 [⟨"/branch", some "A", some "/trunk", some "1"⟩],
   mkEntry 1 [mkPath "/trunk" "A", mkPath "/trunk/file" "A"]]

/-- The merge scenario log (spec scenario 5, test_merge): r1 trunk, r2
branch copy plus modification, r3 mergeinfo on trunk pulling the change,
r4 an independent trunk change. -/
def logMerge : List LogEntry :=
  [mkEntry 4 [mkPath "/trunk/file" "M"],
   mkEntry 3 [mkPath "/trunk" "M", mkPath "/trunk/file" "M"],
   mkEntry 2 [⟨"/branch", some "A", some "/trunk", some "1"⟩,
              mkPath "/branch/file" "M"],
   mkEntry 1 [mkPath "/trunk" "A", mkPath "/trunk/file" "A"]]

/-- The merge scenario dump. -/
def dumpMerge : List DumpRecord :=
  dumpHeaderRecords ++
  [mkRevRecord 1,
   mkNodeRecord "add" (some "dir") "trunk" none none none none,
   mkNodeRecord "add" (some "file") "trunk/file" none none none
     (some (strBytes "original\n")),
   mkRevRecord 2,
   mkNodeRecord "add" none "branch" (some "trunk") (some 1) none none,
   mkNodeRecord "change" none "branch/file" none none none
     (some (strBytes "branched\n")),
   mkRevRecord 3,
   mkNodeRecord "change" none "trunk" none none
     (some [("svn:mergeinfo", "/branch:2")]) none,
   mkNodeRecord "change" none "trunk/file" none none none
     (some (strBytes "branched\n")),
   mkRevRecord 4,
   mkNodeRecord "change" none "trunk/file" none none none
     (some (strBytes "normal\n"))]

/-- The modify-branch scenario log (spec scenario 1, test_modify_branch):
r1 adds the trunk directory, r2 changes its properties. -/
def logModifyBranch : List LogEntry :=
  [mkEntry 2 [mkPath "/trunk" "M"],
   mkEntry 1 [mkPath "/trunk" "A"]]

/-- The modify-branch scenario dump. -/
def dumpModifyBranch : List DumpRecord :=
  dumpHeaderRecords ++
  [mkRevRecord 1,
   mkNodeRecord "add" (some "dir") "trunk" none none none none,
   mkRevRecord 2,
   mkNodeRecord "change" none "trunk" none none
     (some [("name", "value")]) none]

/-- A scenario that runs to completion with a skipped commit: r1 adds the
trunk directory alone, r2 adds an unrelated directory. -/
def logDirOnly : List LogEntry :=
  [mkEntry 2 [mkPath "/other" "A"],
   mkEntry 1 [mkPath "/trunk" "A"]]

/-- The dump of the dir-only scenario. -/
def dumpDirOnly : List DumpRecord :=
  dumpHeaderRecords ++
  [mkRevRecord 1,
   mkNodeRecord "add" (some "dir") "trunk" none none none none,
   mkRevRecord 2,
   mkNodeRecord "add" (some "dir") "other" none none none none]

/-- A bare branch copy whose log entry carries copyfrom-path but no
copyfrom-rev attribute, so the location walk accepts it while the commit
decision still sees a pure copy target. -/
def logBareCopy : List LogEntry :=
  [⟨2, none, some svnDate, some [⟨"/branch", some "A", some "/trunk", none⟩]⟩,
   mkEntry 1 [mkPath "/trunk" "A", mkPath "/trunk/file" "A"]]

/-- The dump of the bare-copy scenario. -/
def dumpBareCopy : List DumpRecord :=
  dumpHeaderRecords ++
  [mkRevRecord 1,
   mkNodeRecord "add" (some "dir") "trunk" none none none none,
   mkNodeRecord "add" (some "file") "trunk/file" none none none
     (some (strBytes "hi\n")),
   mkRevRecord 2,
   mkNodeRecord "add" none "branch" (some "trunk") (some 1) none none]

/-- A scenario whose export emits a full commit: r1 adds trunk with a
file, r2 adds an unrelated directory. -/
def logFileCommit : List LogEntry :=
  [mkEntry 2 [mkPath "/other" "A"],
   mkEntry 1 [mkPath "/trunk" "A", mkPath "/trunk/file" "A"]]

/-- The dump of the file-commit scenario. -/
def dumpFileCommit : List DumpRecord :=
  dumpHeaderRecords ++
  [mkRevRecord 1,
   mkNodeRecord "add" (some "dir") "trunk" none none none none,
   mkNodeRecord "add" (some "file") "trunk/file" none none none
     (some (strBytes "hi\n")),
   mkRevRecord 2,
   mkNodeRecord "add" (some "dir") "other" none none none none]

/-! Projections over run results and a few derived definitions used by
theorem statements. -/

/-- The raised exception of a run, if any. -/
def presErr {α : Type} : PRes α → Option String
  | .ok _ _ => none
  | .err e _ => some e

/-- The returned value of a run, if it finished. -/
def presVal {α : Type} : PRes α → Option α
  | .ok a _ => some a
  | .err _ _ => none

/-- The output trace a run produced (also on error). -/
def presOut {α : Type} : PRes α → List OutItem
  | .ok _ st => st.output
  | .err _ st => st.output

/-- The Known-Branch Index after a run. -/
def presKnown {α : Type} : PRes α → KnownIdx
  | .ok _ st => st.known
  | .err _ st => st.known

/-- The mark counter after a run. -/
def presNextmark {α : Type} : PRes α → Nat
  | .ok _ st => st.nextmark
  | .err _ st => st.nextmark

/-- Two direct calls of the sink's blob with the same path, starting from
a fresh sink. -/
def blobTwice (p : String) (b1 b2 : List Nat) : PRes String :=
  (do
    let _ ← sinkBlob p b1
    sinkBlob p b2) emptyExpState

/-- A whole delta consisting of one COPY_FROM_NEW window in the encoding
the applier accepts: instruction byte 128 (opcode NEW, low six bits
clear), the copy length as a varint, and the new data. -/
def mkNewDelta (data : List Nat) : List Nat :=
  [0x53, 0x56, 0x4E, 0x00] ++ encodeVarint 0 ++ encodeVarint 0 ++
    encodeVarint data.length ++
    encodeVarint ((128 :: encodeVarint data.length).length) ++
    encodeVarint data.length ++ ((128 :: encodeVarint data.length) ++ data)

/-- Strictly increasing adjacent elements of an integer list. -/
def strictSortedB : List Int → Bool
  | [] => true
  | [_] => true
  | a :: b :: rest => (decide (a < b)) && strictSortedB (b :: rest)

/-! Theorems.  First the varint round trip, then the claim theorems with
their witnesses and counterexamples. -/

/-- A continuation byte shifts the accumulator by seven bits and adds the
byte's low seven bits. -/
theorem readIntGo_cont (k d : Nat) (hd : d < 128) (l : List Nat) :
    readIntGo k ((d + 128) :: l) = readIntGo (k * 128 + d) l := by
  have h1 : (d + 128) % 128 = d := by omega
  have h2 : (d + 128) / 128 = 1 := by omega
  simp [readIntGo, h1, h2]

/-- A final byte (no continuation bit) ends the number. -/
theorem readIntGo_last (k d : Nat) (hd : d < 128) (l : List Nat) :
    readIntGo k (d :: l) = .ok (k * 128 + d, l) := by
  have h1 : d % 128 = d := Nat.mod_eq_of_lt hd
  have h2 : d / 128 = 0 := Nat.div_eq_of_lt hd
  simp [readIntGo, h1, h2]

/-- The high-digit prefix produced by encodeVarintGo feeds the read loop
exactly the base-128 digits of m. -/
theorem readIntGo_encodeVarintGo (fuel : Nat) : ∀ (m : Nat), m ≤ fuel →
    ∀ (acc rest : List Nat) (k : Nat), ∃ t,
      readIntGo k (encodeVarintGo fuel m acc ++ rest) =
        readIntGo (k * 128 ^ t + m) (acc ++ rest) := by
  induction fuel with
  | zero =>
      intro m hm acc rest k
      refine ⟨0, ?_⟩
      have : m = 0 := Nat.le_zero.mp hm
      subst this
      simp [encodeVarintGo]
  | succ fuel ih =>
      intro m hm acc rest k
      by_cases hz : m = 0
      · subst hz
        refine ⟨0, ?_⟩
        simp [encodeVarintGo]
      · have hdiv : m / 128 ≤ fuel := by
          have : m / 128 < m := Nat.div_lt_self (Nat.pos_of_ne_zero hz) (by omega)
          omega
        obtain ⟨t, ht⟩ := ih (m / 128) hdiv ((m % 128 + 128) :: acc) rest k
        refine ⟨t + 1, ?_⟩
        have hstep : readIntGo (k * 128 ^ t + m / 128) ((m % 128 + 128) :: (acc ++ rest)) =
            readIntGo ((k * 128 ^ t + m / 128) * 128 + m % 128) (acc ++ rest) :=
          readIntGo_cont _ _ (Nat.mod_lt _ (by omega)) _
        have harith : (k * 128 ^ t + m / 128) * 128 + m % 128 = k * 128 ^ (t + 1) + m := by
          have := Nat.div_add_mod m 128
          ring_nf
          omega
        calc readIntGo k (encodeVarintGo (fuel + 1) m acc ++ rest)
            = readIntGo k (encodeVarintGo fuel (m / 128) ((m % 128 + 128) :: acc) ++ rest) := by
              simp [encodeVarintGo, hz]
          _ = readIntGo (k * 128 ^ t + m / 128) (((m % 128 + 128) :: acc) ++ rest) := ht
          _ = readIntGo ((k * 128 ^ t + m / 128) * 128 + m % 128) (acc ++ rest) := hstep
          _ = readIntGo (k * 128 ^ (t + 1) + m) (acc ++ rest) := by rw [harith]

/-- read_int decodes exactly what encodeVarint encodes, leaving the rest
of the stream untouched. -/
theorem readInt_encodeVarint (n : Nat) (rest : List Nat) :
    readInt (encodeVarint n ++ rest) = .ok (n, rest) := by
  unfold readInt encodeVarint
  obtain ⟨t, ht⟩ := readIntGo_encodeVarintGo n (n / 128) (Nat.div_le_self n 128)
    [n % 128] rest 0
  rw [ht]
  have : readIntGo (0 * 128 ^ t + n / 128) ([n % 128] ++ rest) =
      .ok ((0 * 128 ^ t + n / 128) * 128 + n % 128, rest) :=
    readIntGo_last _ _ (Nat.mod_lt _ (by omega)) _
  rw [this]
  simp only [Nat.zero_mul, Nat.zero_add]
  have harith : n / 128 * 128 + n % 128 = n := by omega
  rw [harith]

/-- read_int applied to a bare varint. -/
theorem readInt_encodeVarint_nil (n : Nat) :
    readInt (encodeVarint n) = .ok (n, []) := by
  have := readInt_encodeVarint n []
  simpa using this

/-- C1.  The claim says the location-segments walk produces the branch's
full history youngest to oldest, tracing branch copies via
copyfrom-path/rev so that a branch created by copy yields further, older
segments at the source path.  The code does neither: on the export-copies
log (branch copied from trunk in r2, modified in r3) it yields the single
segment (2, 3, branch) with no older trunk segment, and when the log
carries the copyfrom attributes of a real branch copy it raises an
assertion instead of following them (Ancestors.add_natural furthermore
calls get_location_segments, a name the module never defines).  This
contradicts the module docstring (follow branch copies) and the
repository's own tests, so the code, not the claim, is wrong. -/
theorem c1_location_walk :
    iterLocationSegments logExportCopies "branch" none = .ok [(2, 3, "branch")] ∧
    iterLocationSegments logExportCopiesMarked "branch" none =
      .error "AssertionError: branch creation entry has copyfrom-rev" := by
  exact ⟨rfl, rfl⟩

/-- C2.  The claim (and the repository's test_merge) expects the merge
scenario to yield four commits with from and merge lines on the r3
commit.  The run aborts in the location walk: the youngest entry naming
trunk exactly is r3's property change (action M), which trips the
assertion that the found entry is an add, so nothing at all is emitted.
Even past that point no merge could be emitted: the mergeinfo dict of
Exporter.commit (line 233) is never assigned to, and a directory node
with action change trips the assertion at line 306. -/
theorem c2_merge_scenario_run :
    presErr (runSvnex logMerge dumpMerge [] none "" [] true false
      "refs/trunk" "trunk" none) =
        some "AssertionError: branch creation entry action is not A" ∧
    presOut (runSvnex logMerge dumpMerge [] none "" [] true false
      "refs/trunk" "trunk" none) = [] := by
  exact ⟨rfl, rfl⟩

/-- C3.  The claim (and test_modify_branch) expects two commits with
empty edit lists and git-svn-id trailers.  The run aborts in the location
walk on r2's property change (action M, the youngest exact mention of
trunk) and emits nothing; and even for r1 alone Exporter.commit would
return None, because a commit whose edit list is empty is skipped at
lines 359-361 (see the dir-only run of the C7 counterexample). -/
theorem c3_modify_branch_run :
    presErr (runSvnex logModifyBranch dumpModifyBranch [] none "" [] true false
      "refs/ref" "trunk" none) =
        some "AssertionError: branch creation entry action is not A" ∧
    presOut (runSvnex logModifyBranch dumpModifyBranch [] none "" [] true false
      "refs/ref" "trunk" none) = [] := by
  exact ⟨rfl, rfl⟩

/-- C8.  The claim says every emitted from or merge line references a
mark defined earlier in the stream or an externally seeded GitRef, never
an undefined or null reference.  The reset record for a bare branch copy
is emitted without any guard on gitrev (src/svnex.py lines 211-212): on a
branch whose creation entry carries copyfrom-path (but no copyfrom-rev,
so the location walk accepts it) and with nothing seeded, the whole
output stream is the reset record with the literal line from None.  The
repository's own test_branch_no_commit expects from trunk here, so the
code, not the claim, is wrong. -/
theorem c8_bare_copy_from_none :
    presErr (runSvnex logBareCopy dumpBareCopy [] none "" [] true false
      "refs/b" "branch" none) = none ∧
    presOut (runSvnex logBareCopy dumpBareCopy [] none "" [] true false
      "refs/b" "branch" none) =
      [.line "reset refs/b", .line "from None"] := by
  exact ⟨rfl, rfl⟩

/-- C7 counterexample.  The claim says the Known-Branch Index records
exactly the revisions for which a commit mark was issued, skipped
commits excluded.  On the dir-only scenario the run finishes cleanly and
emits nothing (the r1 commit is skipped for want of edits, and no mark is
ever issued: the counter still stands at one), yet the index records
revision 1, paired with the null gitrev. -/
theorem c7_skipped_revision_recorded :
    presErr (runSvnex logDirOnly dumpDirOnly [] none "" [] true false
      "refs/ref" "trunk" none) = none ∧
    presOut (runSvnex logDirOnly dumpDirOnly [] none "" [] true false
      "refs/ref" "trunk" none) = [] ∧
    presNextmark (runSvnex logDirOnly dumpDirOnly [] none "" [] true false
      "refs/ref" "trunk" none) = 1 ∧
    presKnown (runSvnex logDirOnly dumpDirOnly [] none "" [] true false
      "refs/ref" "trunk" none) = [("trunk", ([1], [[none]]))] := by
  exact ⟨rfl, rfl, rfl, rfl⟩

/-- C4 counterexample.  A well-formed svndiff0 delta (the spec decoder
applies it, producing the two bytes ab) whose single NEW instruction
carries its length in the low six bits of the instruction byte is
rejected by the applier, which insists those bits be clear; so not every
well-formed delta is applied. -/
theorem c4_general_delta_rejected :
    svndiff0ApplySpec []
      ([0x53, 0x56, 0x4E, 0x00] ++ [0, 0, 2, 1, 2] ++ [0x82] ++ [97, 98]) =
      some [97, 98] ∧
    applyTextDeltaCore (some [])
      ([0x53, 0x56, 0x4E, 0x00] ++ [0, 0, 2, 1, 2] ++ [0x82] ++ [97, 98]) =
      .error "AssertionError: instruction low six bits set" := by
  exact ⟨rfl, rfl⟩

/-- C9 counterexample.  The claim says applying an empty delta to an
empty source yields an empty target; the spec decoder indeed maps the
windowless delta (magic only) to the empty target, but the applier
unconditionally reads the five window header integers and raises when
read_int hits the end of the stream. -/
theorem c9_empty_delta_rejected :
    svndiff0ApplySpec [] [0x53, 0x56, 0x4E, 0x00] = some [] ∧
    applyTextDeltaCore (some []) [0x53, 0x56, 0x4E, 0x00] =
      .error "ValueError: read_int on exhausted stream" := by
  exact ⟨rfl, rfl⟩

/-- C6 counterexample.  Starting from a range list satisfying the
invariant, inserting a range that spans more than one existing range
coalesces with only the immediate neighbors and leaves overlapping
ranges behind, violating the invariant the claim asserts. -/
theorem c6_overlap_after_spanning_insert :
    rsInvB [((1 : Int), (2 : Int), true), (5, 6, true), (10, 11, true)] = true ∧
    addSegmentList [((1 : Int), (2 : Int), true), (5, 6, true), (10, 11, true)] 0 20 =
      [(0, 20, true), (5, 6, true), (10, 11, true)] ∧
    rsInvB (addSegmentList
      [((1 : Int), (2 : Int), true), (5, 6, true), (10, 11, true)] 0 20) = false := by
  exact ⟨by decide, by decide, by decide⟩

/-- C10 counterexample.  The claim says a later blob call with the same
path re-emits and returns the same mark.  Calling blob twice in a row
with the same path on a fresh sink instead raises: the first call stores
the one-element tuple (mark,), and the second call's unpacking of it into
(mark, _) fails. -/
theorem c10_second_blob_unpack_error :
    presErr (blobTwice "p" [104] [105]) =
      some "ValueError: cannot unpack files entry into two" := by
  exact rfl

/-- encodeVarintGo only ever prepends to its accumulator. -/
theorem encodeVarintGo_ne_nil (fuel : Nat) : ∀ m acc, acc ≠ [] →
    encodeVarintGo fuel m acc ≠ [] := by
  induction fuel with
  | zero => intro m acc h; simpa [encodeVarintGo] using h
  | succ fuel ih =>
      intro m acc h
      by_cases hz : m = 0
      · simpa [encodeVarintGo, hz] using h
      · simpa [encodeVarintGo, hz] using ih (m / 128) _ (by simp)

/-- A varint encoding is never empty. -/
theorem encodeVarint_ne_nil (n : Nat) : encodeVarint n ≠ [] :=
  encodeVarintGo_ne_nil n _ _ (by simp)

/-- The spec decoder accepts an exhausted window stream. -/
theorem svndiff0Windows_nil_aux (src : List Nat) (fuel : Nat) (h : fuel ≠ 0) :
    svndiff0Windows src fuel [] = some [] := by
  cases fuel with
  | zero => exact absurd rfl h
  | succ f => simp [svndiff0Windows]

/-- C4 amended.  The applier handles exactly the restricted svndiff0
form: one window whose source offset is zero and whose instruction
stream is a single instruction byte with clear low six bits followed by
the length varint, either COPY_FROM_SOURCE with offset zero (the target
is a prefix of the source; the header lengths are otherwise unchecked)
or COPY_FROM_NEW whose length equals the new-data length.  Both forms
are applied correctly for every varint-encoded length. -/
theorem c4_restricted_delta_applied :
    (∀ (src : List Nat) (copy slen tlen dlen : Nat),
      applyTextDeltaCore (some src)
        ([0x53, 0x56, 0x4E, 0x00] ++ encodeVarint 0 ++ encodeVarint slen ++
          encodeVarint tlen ++
          encodeVarint ((0 :: (encodeVarint copy ++ encodeVarint 0)).length) ++
          encodeVarint dlen ++
          (0 :: (encodeVarint copy ++ encodeVarint 0))) = .ok (src.take copy)) ∧
    (∀ (srcOpt : Option (List Nat)) (data : List Nat) (slen tlen : Nat),
      applyTextDeltaCore srcOpt
        ([0x53, 0x56, 0x4E, 0x00] ++ encodeVarint 0 ++ encodeVarint slen ++
          encodeVarint tlen ++
          encodeVarint ((128 :: encodeVarint data.length).length) ++
          encodeVarint data.length ++
          ((128 :: encodeVarint data.length) ++ data)) = .ok data) := by
  constructor
  · intro src copy slen tlen dlen
    have h1 : List.take ((encodeVarint copy).length + (encodeVarint 0).length)
        (encodeVarint copy ++ encodeVarint 0) = encodeVarint copy ++ encodeVarint 0 :=
      List.take_of_length_le (by simp)
    simp [applyTextDeltaCore, readInt_encodeVarint, readInt_encodeVarint_nil,
      List.take_left, List.drop_left, bind, Except.bind, pure, Except.pure, h1]
  · intro srcOpt data slen tlen
    simp [applyTextDeltaCore, readInt_encodeVarint, readInt_encodeVarint_nil,
      List.take_left, List.drop_left, bind, Except.bind, pure, Except.pure]

/-- C9 amended.  The round trip holds in the form the applier accepts: a
delta holding a single COPY_FROM_NEW window (instruction length in a
following varint) is applied to exactly the window's data bytes, agreeing
with the general spec decoder; the windowless empty delta, however, is
rejected by the applier (read_int hits the end of the stream) even though
it denotes the empty target. -/
theorem c9_new_window_round_trip :
    (∀ data : List Nat,
      applyTextDeltaCore none (mkNewDelta data) = .ok data ∧
      svndiff0ApplySpec [] (mkNewDelta data) = some data) ∧
    applyTextDeltaCore none [0x53, 0x56, 0x4E, 0x00] =
      .error "ValueError: read_int on exhausted stream" := by
  constructor
  · intro data
    constructor
    · simp [mkNewDelta, applyTextDeltaCore, readInt_encodeVarint,
        readInt_encodeVarint_nil, List.take_left, List.drop_left, bind,
        Except.bind, pure, Except.pure]
    · have hnn : (mkNewDelta data).length ≠ 0 := by simp [mkNewDelta]
      simp [svndiff0ApplySpec, mkNewDelta, svndiff0Windows, svndiff0WindowInstrs,
        readInt_encodeVarint, readInt_encodeVarint_nil, encodeVarint_ne_nil,
        List.take_left, List.drop_left, svndiff0Windows_nil_aux _ _ hnn]
  · rfl

/-- C5.  One step of the Pending-Segment Planner behaves exactly as the
claim describes.  For a scanned segment (start, end, path), base is the
last revision of the candidate run found by bisect_right on the branch's
run starts (the claim's known run): when nothing is known (no candidate,
or the candidate ends before start) the planner appends
(start - 1, end, path) and continues with the older segments; when
start ≤ base ≤ end it appends (base, end, path) exactly when base < end,
records the resume anchor (base, path) and git_base as that run's last
GitRef, and stops scanning; when base > end it stops without appending
(still recording the anchor); and the resulting plan is iterated oldest
to youngest, the reverse of discovery order. -/
theorem c5_pending_planner (known : KnownIdx) (start endR : Int) (path : String)
    (rest acc : List (Int × Int × String)) :
    (bisectRightInt (knownGetD known path).1 endR = 0 →
      pendingGo known ((start, endR, path) :: rest) acc =
        pendingGo known rest (acc ++ [(start - 1, endR, path)])) ∧
    (∀ (i : Nat) (ks : Int) (run : List (Option String)),
      bisectRightInt (knownGetD known path).1 endR = i + 1 →
      (knownGetD known path).1.get? i = some ks →
      (knownGetD known path).2.get? i = some run →
      ((ks + (run.length : Int) - 1 < start →
        pendingGo known ((start, endR, path) :: rest) acc =
          pendingGo known rest (acc ++ [(start - 1, endR, path)])) ∧
       (∀ g : Option String, run.getLast? = some g →
        (start ≤ ks + (run.length : Int) - 1 →
         ks + (run.length : Int) - 1 < endR →
         pendingGo known ((start, endR, path) :: rest) acc =
           .ok ⟨acc ++ [(ks + (run.length : Int) - 1, endR, path)],
                (ks + (run.length : Int) - 1, path), some g⟩) ∧
        (start ≤ ks + (run.length : Int) - 1 →
         ks + (run.length : Int) - 1 = endR →
         pendingGo known ((start, endR, path) :: rest) acc =
           .ok ⟨acc, (ks + (run.length : Int) - 1, path), some g⟩) ∧
        (start ≤ endR → endR < ks + (run.length : Int) - 1 →
         pendingGo known ((start, endR, path) :: rest) acc =
           .ok ⟨acc, (ks + (run.length : Int) - 1, path), some g⟩)))) ∧
    (∀ r : PendResult, pendingIterate r = r.segments.reverse) := by
  refine ⟨?_, ?_, fun r => rfl⟩
  · intro h
    simp only [pendingGo]
    rw [h]
    simp
  · intro i ks run hb hks hrun
    constructor
    · intro hlt
      simp only [pendingGo]
      rw [hb]
      simp only [Nat.add_sub_cancel, hks, hrun]
      rw [if_neg (by omega), if_neg (by omega)]
    · intro g hg
      refine ⟨?_, ?_, ?_⟩
      · intro h1 h2
        simp only [pendingGo]
        rw [hb]
        simp only [Nat.add_sub_cancel, hks, hrun, hg]
        rw [if_neg (by omega), if_pos (by omega), if_pos (by omega)]
      · intro h1 h2
        simp only [pendingGo]
        rw [hb]
        simp only [Nat.add_sub_cancel, hks, hrun, hg]
        rw [if_neg (by omega), if_pos (by omega), if_neg (by omega)]
      · intro h1 h2
        simp only [pendingGo]
        rw [hb]
        simp only [Nat.add_sub_cancel, hks, hrun, hg]
        rw [if_neg (by omega), if_pos (by omega), if_neg (by omega)]

/-- Witness for C5: a concrete partly-known segment.  The branch b has
one run covering revisions 3 and 4; the segment (2, 10, b) is cut down to
the plan entry (4, 10, b) with anchor (4, b) and git_base g2, scanning no
further. -/
theorem c5_pending_planner_witness :
    pendingGo [("b", ([3], [[some "g1", some "g2"]]))]
      [((2 : Int), (10 : Int), "b"), (0, 1, "older")] [] =
      .ok ⟨[((4 : Int), (10 : Int), "b")], (4, "b"), some (some "g2")⟩ := by
  have h := (c5_pending_planner [("b", ([3], [[some "g1", some "g2"]]))]
    2 10 "b" [(0, 1, "older")] []).2.1 0 3 [some "g1", some "g2"]
    (by decide) (by decide) (by decide)
  have h2 := (h.2 (some "g2") (by decide)).1 (by decide) (by decide)
  simpa using h2

/-- Store and lookup agree on the stored key of the Known-Branch Index. -/
theorem knownGetD_knownSet (m : KnownIdx) (k : String) (v : KnownEntry) :
    knownGetD (knownSet m k v) k = v := by
  induction m with
  | nil => simp [knownSet, knownGetD, List.find?]
  | cons p rest ih =>
      by_cases h : p.1 == k
      · simp [knownSet, h, knownGetD, List.find?]
      · simp only [knownSet, h]
        simp only [knownGetD, List.find?, h] at ih ⊢
        simpa [h] using ih

/-- C7 amended.  The remember block runs after every iterated revision,
committed or not (the counterexample shows a skipped revision being
recorded with a null gitrev); what it records is then found by the index
lookup: for a revision newer than everything recorded for the branch
(the export loop feeds revisions in ascending order), remember succeeds
and the subsequent lookup of that revision returns exactly the recorded
gitrev, the new revision having been appended to the preceding run when
contiguous or opened as a fresh run. -/
theorem c7_remember_then_lookup (known : KnownIdx) (b : String) (rev : Int)
    (g : Option String)
    (hall : ∀ x ∈ (knownGetD known b).1, x < rev)
    (hlen : (knownGetD known b).1.length = (knownGetD known b).2.length) :
    ∃ known2, rememberRevision known b rev g = .ok known2 ∧
      knownLookup known2 b rev = some g := by
  set starts := (knownGetD known b).1 with hstarts
  set runs := (knownGetD known b).2 with hruns
  have hT : starts.takeWhile (fun y => decide (y < rev)) = starts := by
    rw [List.takeWhile_eq_self_iff]
    intro x hx
    simpa using hall x hx
  have hi : bisectLeftInt starts rev = starts.length := by
    simp [bisectLeftInt, hT]
  have hle : ∀ x ∈ starts, decide (x ≤ rev) = true := by
    intro x hx
    simpa using le_of_lt (hall x hx)
  by_cases hz : starts.length = 0
  · have hse : starts = [] := List.length_eq_zero.mp hz
    have hre : runs = [] := List.length_eq_zero.mp (by omega)
    refine ⟨knownSet known b ([rev], [[g]]), ?_, ?_⟩
    · simp [rememberRevision, ← hstarts, ← hruns, hse, hre, bisectLeftInt]
    · simp [knownLookup, knownGetD_knownSet, bisectRightInt]
  · have hpos : 0 < starts.length := Nat.pos_of_ne_zero hz
    have hrl : starts.length - 1 < runs.length := by omega
    obtain ⟨s, hs⟩ : ∃ s, starts[starts.length - 1]? = some s :=
      ⟨_, List.getElem?_eq_getElem (by omega)⟩
    obtain ⟨run, hr⟩ : ∃ r, runs[starts.length - 1]? = some r :=
      ⟨_, List.getElem?_eq_getElem hrl⟩
    have hjfull : bisectRightInt starts rev = starts.length := by
      have h2 : starts.takeWhile (fun y => decide (y ≤ rev)) = starts := by
        rw [List.takeWhile_eq_self_iff]
        exact hle
      simp [bisectRightInt, h2]
    by_cases hc : s + (run.length : Int) = rev
    · refine ⟨knownSet known b (starts, runs.set (starts.length - 1) (run ++ [g])),
        ?_, ?_⟩
      · simp [rememberRevision, ← hstarts, ← hruns, hi, hz, hs, hr, hc]
      · have hset : (runs.set (starts.length - 1) (run ++ [g]))[starts.length - 1]? =
            some (run ++ [g]) := List.getElem?_set_self hrl
        have hcov : rev < s + ((run ++ [g]).length : Int) := by
          simp only [List.length_append, List.length_cons, List.length_nil]
          omega
        have htn : (rev - s).toNat = run.length := by omega
        have hgidx : (run ++ [g])[run.length]? = some g :=
          List.getElem?_concat_length run g
        simp only [knownLookup, knownGetD_knownSet, hjfull, List.get?_eq_getElem?,
          hs, hset]
        rw [if_neg (by omega), if_pos hcov, htn, hgidx]
    · have htake : starts.take (starts.length) = starts := List.take_length starts
      have hdrop : starts.drop (starts.length) = [] := List.drop_length starts
      have hrt : runs.take (starts.length) = runs := by
        rw [hlen]; exact List.take_length runs
      have hrd : runs.drop (starts.length) = [] := by
        rw [hlen]; exact List.drop_length runs
      refine ⟨knownSet known b (starts ++ [rev], runs ++ [[g]]), ?_, ?_⟩
      · simp [rememberRevision, ← hstarts, ← hruns, hi, hz, hs, hr, hc, htake,
          hdrop, hrt, hrd]
      · have hTW : (starts ++ [rev]).takeWhile (fun y => decide (y ≤ rev)) =
            starts ++ [rev] := by
          rw [List.takeWhile_eq_self_iff]
          intro x hx
          rcases List.mem_append.mp hx with hx | hx
          · exact hle x hx
          · simp at hx
            simp [hx]
        have hj : bisectRightInt (starts ++ [rev]) rev = starts.length + 1 := by
          simp [bisectRightInt, hTW]
        have hgs : (starts ++ [rev])[starts.length]? = some rev :=
          List.getElem?_concat_length starts rev
        have hgr : (runs ++ [[g]])[starts.length]? = some [g] := by
          rw [hlen]
          exact List.getElem?_concat_length runs [g]
        have hcov : rev < rev + (([g] : List (Option String)).length : Int) := by
          simp
        simp only [knownLookup, knownGetD_knownSet, hj, Nat.add_sub_cancel,
          List.get?_eq_getElem?, hgs, hgr]
        rw [if_neg (by omega), if_pos hcov]
        simp

/-- Witness for C7: recording revision 6 with mark :7 on a branch whose
last run covers 3 and 4 opens a fresh run, and the lookup of 6 then
returns :7. -/
theorem c7_remember_then_lookup_witness :
    rememberRevision [("trunk", ([3], [[some ":1", some ":2"]]))] "trunk" 6
      (some ":7") =
      .ok [("trunk", ([3, 6], [[some ":1", some ":2"], [some ":7"]]))] ∧
    knownLookup [("trunk", ([3, 6], [[some ":1", some ":2"], [some ":7"]]))]
      "trunk" 6 = some (some ":7") := by
  constructor
  · rfl
  · obtain ⟨k2, h1, h2⟩ := c7_remember_then_lookup
      [("trunk", ([3], [[some ":1", some ":2"]]))] "trunk" 6 (some ":7")
      (by decide) (by decide)
    have hlit : rememberRevision [("trunk", ([3], [[some ":1", some ":2"]]))]
        "trunk" 6 (some ":7") =
        .ok [("trunk", ([3, 6], [[some ":1", some ":2"], [some ":7"]]))] := by
      rfl
    rw [hlit] at h1
    injection h1 with he
    exact he ▸ h2

/-- The fueled digit extractor agrees with Mathlib's base-ten digits. -/
theorem decDigitsGo_eq (fuel : Nat) : ∀ n, n ≤ fuel →
    decDigitsGo fuel n = Nat.digits 10 n := by
  induction fuel with
  | zero =>
      intro n hn
      have : n = 0 := Nat.le_zero.mp hn
      subst this
      simp [decDigitsGo]
  | succ fuel ih =>
      intro n hn
      by_cases hz : n = 0
      · subst hz; simp [decDigitsGo]
      · have h10 : n / 10 ≤ fuel := by
          have : n / 10 < n := Nat.div_lt_self (Nat.pos_of_ne_zero hz) (by omega)
          omega
        rw [decDigitsGo, if_neg hz, ih (n / 10) h10,
          Nat.digits_def' (by norm_num : (1 : Nat) < 10) (Nat.pos_of_ne_zero hz)]

/-- digitChar is injective on digits. -/
theorem digitChar_inj_lt (a b : Nat) (ha : a < 10) (hb : b < 10)
    (h : Nat.digitChar a = Nat.digitChar b) : a = b := by
  interval_cases a <;> interval_cases b <;> simp_all [Nat.digitChar]

/-- Mapping digitChar over digit lists is injective. -/
theorem map_digitChar_inj : ∀ (l1 l2 : List Nat), (∀ x ∈ l1, x < 10) →
    (∀ x ∈ l2, x < 10) → l1.map Nat.digitChar = l2.map Nat.digitChar → l1 = l2 := by
  intro l1
  induction l1 with
  | nil => intro l2 _ _ h; cases l2 <;> simp_all
  | cons a t ih =>
      intro l2 h1 h2 h
      cases l2 with
      | nil => simp_all
      | cons b t2 =>
          simp only [List.map_cons, List.cons.injEq] at h
          have ha := h1 a (by simp)
          have hb := h2 b (by simp)
          have := digitChar_inj_lt a b ha hb h.1
          subst this
          rw [ih t2 (fun x hx => h1 x (by simp [hx]))
            (fun x hx => h2 x (by simp [hx])) h.2]

/-- The decimal rendering is injective, so distinct counters give
distinct marks. -/
theorem decRepr_inj (m n : Nat) (h : decRepr m = decRepr n) : m = n := by
  have key : ∀ k, k ≠ 0 → decRepr k ≠ "0" := by
    intro k hk hcon
    have hdig : decDigitsGo (k + 1) k = Nat.digits 10 k := decDigitsGo_eq _ _ (by omega)
    have : (String.mk (((Nat.digits 10 k).reverse).map Nat.digitChar)).data =
        "0".data := by
      rw [← hdig]
      exact congrArg String.data (by simpa [decRepr, hk] using hcon)
    simp only [String.data] at this
    have hlen : (Nat.digits 10 k).length = 1 := by
      have := congrArg List.length this
      simpa using this
    obtain ⟨d, hd⟩ : ∃ d, Nat.digits 10 k = [d] := by
      cases hh : Nat.digits 10 k with
      | nil => rw [hh] at hlen; simp at hlen
      | cons x t =>
          rw [hh] at hlen
          simp at hlen
          exact ⟨x, by simp [hh, hlen]⟩
    rw [hd] at this
    simp at this
    have hd0 : d = 0 := by
      have hchar : Nat.digitChar d = '0' := this
      have hdlt : d < 10 := Nat.digits_lt_base (by norm_num) (by rw [hd]; simp)
      exact digitChar_inj_lt d 0 hdlt (by norm_num) (by simpa using hchar)
    have hk0 : k = Nat.ofDigits 10 (Nat.digits 10 k) := (Nat.ofDigits_digits 10 k).symm
    rw [hd, hd0] at hk0
    simp [Nat.ofDigits] at hk0
    exact hk hk0
  by_cases hm : m = 0 <;> by_cases hn : n = 0
  · omega
  · subst hm
    have h0 : decRepr 0 = "0" := rfl
    rw [h0] at h
    exact absurd h.symm (key n hn)
  · subst hn
    have h0 : decRepr 0 = "0" := rfl
    rw [h0] at h
    exact absurd h (key m hm)
  · have hdm : decDigitsGo (m + 1) m = Nat.digits 10 m := decDigitsGo_eq _ _ (by omega)
    have hdn : decDigitsGo (n + 1) n = Nat.digits 10 n := decDigitsGo_eq _ _ (by omega)
    have hdata := congrArg String.data h
    simp only [decRepr, hm, hn, if_false, ite_false] at hdata
    rw [hdm, hdn] at hdata
    have hrev := map_digitChar_inj _ _
      (fun x hx => Nat.digits_lt_base (by norm_num) (List.mem_reverse.mp hx))
      (fun x hx => Nat.digits_lt_base (by norm_num) (List.mem_reverse.mp hx)) hdata
    have hdig := List.reverse_injective hrev
    calc m = Nat.ofDigits 10 (Nat.digits 10 m) := (Nat.ofDigits_digits 10 m).symm
      _ = Nat.ofDigits 10 (Nat.digits 10 n) := by rw [hdig]
      _ = n := Nat.ofDigits_digits 10 n

/-- Updating one path's files entry leaves other paths untouched. -/
theorem filesGet_filesSet_ne (f : List (String × List (Option String)))
    (k1 k2 : String) (v : List (Option String)) (h : k1 ≠ k2) :
    filesGet (filesSet f k1 v) k2 = filesGet f k2 := by
  induction f with
  | nil =>
      have hb : (k1 == k2) = false := by simpa using h
      simp [filesSet, filesGet, List.find?, hb]
  | cons q rest ih =>
      by_cases hq : q.1 == k1
      · have hne : ¬ (k1 == k2) := by simpa using h
        have hq2 : ¬ (q.1 == k2) := by
          have : q.1 = k1 := by simpa using hq
          simpa [this] using h
        simp [filesSet, hq, filesGet, List.find?, hne, hq2]
      · by_cases hq2 : q.1 == k2
        · simp [filesSet, hq, filesGet, List.find?, hq2]
        · simp only [filesSet, hq, if_false, ite_false]
          simp only [filesGet, List.find?, hq2] at ih ⊢
          simpa [hq2] using ih

/-- The fresh-path behavior of the sink's blob. -/
theorem sinkBlob_fresh (st : ExpState) (p : String) (buf : List Nat)
    (hfp : filesGet st.files p = none) :
    sinkBlob p buf st =
      .ok (":" ++ decRepr st.nextmark)
        { st with
          nextmark := st.nextmark + 1,
          files := filesSet st.files p [some (":" ++ decRepr st.nextmark)],
          filedata := filedataSet st.filedata (":" ++ decRepr st.nextmark) buf,
          output := st.output ++
            [.line "blob", .line ("mark " ++ (":" ++ decRepr st.nextmark)),
             .line ("data " ++ decRepr buf.length), .raw buf, .line ""] } := by
  simp [sinkBlob, sinkBlobHeader, sinkNewMark, emGet, emModify, emit, emitRaw,
    hfp, bind, pure]

/-- The stored-pair behavior of the sink's blob. -/
theorem sinkBlob_reuse (st : ExpState) (p : String) (buf : List Nat) (m : String)
    (mode : Option String)
    (hfp : filesGet st.files p = some [some m, mode]) :
    sinkBlob p buf st =
      .ok m
        { st with
          filedata := filedataSet st.filedata m buf,
          output := st.output ++
            [.line "blob", .line ("mark " ++ m),
             .line ("data " ++ decRepr buf.length), .raw buf, .line ""] } := by
  simp [sinkBlob, sinkBlobHeader, sinkNewMark, emGet, emModify, emit, emitRaw,
    hfp, bind, pure]

/-- C10 amended.  The first blob call for a path allocates the fresh mark
of the current counter, re-emits the blob header and body, and stores the
one-element files tuple; a later call finds the same mark again only when
the exporter protocol meanwhile replaced the entry by the pair
(mark, mode), in which case the same mark is re-emitted with the new
contents and the counter does not move (a second direct call without that
assignment instead raises, as the counterexample shows); and two fresh
paths receive distinct marks, because the counter increases and decimal
renderings of distinct counters differ. -/
theorem c10_blob_mark_discipline :
    (∀ (st : ExpState) (p : String) (buf : List Nat),
      filesGet st.files p = none →
      sinkBlob p buf st =
        .ok (":" ++ decRepr st.nextmark)
          { st with
            nextmark := st.nextmark + 1,
            files := filesSet st.files p [some (":" ++ decRepr st.nextmark)],
            filedata := filedataSet st.filedata (":" ++ decRepr st.nextmark) buf,
            output := st.output ++
              [.line "blob", .line ("mark " ++ (":" ++ decRepr st.nextmark)),
               .line ("data " ++ decRepr buf.length), .raw buf, .line ""] }) ∧
    (∀ (st : ExpState) (p : String) (buf : List Nat) (m : String)
        (mode : Option String),
      filesGet st.files p = some [some m, mode] →
      sinkBlob p buf st =
        .ok m
          { st with
            filedata := filedataSet st.filedata m buf,
            output := st.output ++
              [.line "blob", .line ("mark " ++ m),
               .line ("data " ++ decRepr buf.length), .raw buf, .line ""] }) ∧
    (∀ (st : ExpState) (p1 p2 : String) (b1 b2 : List Nat),
      p1 ≠ p2 → filesGet st.files p1 = none → filesGet st.files p2 = none →
      ∃ st2 st3 m1 m2, sinkBlob p1 b1 st = .ok m1 st2 ∧
        sinkBlob p2 b2 st2 = .ok m2 st3 ∧ m1 ≠ m2) := by
  refine ⟨sinkBlob_fresh, sinkBlob_reuse, ?_⟩
  intro st p1 p2 b1 b2 hne h1 h2
  have e1 := sinkBlob_fresh st p1 b1 h1
  have h2b : filesGet (filesSet st.files p1 [some (":" ++ decRepr st.nextmark)]) p2 =
      none := by
    rw [filesGet_filesSet_ne st.files p1 p2 _ hne]
    exact h2
  have e2 := sinkBlob_fresh
    { st with
      nextmark := st.nextmark + 1,
      files := filesSet st.files p1 [some (":" ++ decRepr st.nextmark)],
      filedata := filedataSet st.filedata (":" ++ decRepr st.nextmark) b1,
      output := st.output ++
        [OutItem.line "blob", OutItem.line ("mark " ++ (":" ++ decRepr st.nextmark)),
         OutItem.line ("data " ++ decRepr b1.length), OutItem.raw b1,
         OutItem.line ""] } p2 b2 h2b
  refine ⟨_, _, _, _, e1, e2, ?_⟩
  intro hcon
  have hd := congrArg String.data hcon
  simp only [String.data_append] at hd
  have hdd : (decRepr st.nextmark).data = (decRepr (st.nextmark + 1)).data :=
    List.append_cancel_left hd
  have := decRepr_inj _ _ (String.ext hdd)
  omega

/-- Witness for C10: the first blob on a fresh sink returns mark :1 and
leaves the one-element files tuple behind. -/
theorem c10_blob_mark_discipline_witness :
    sinkBlob "f" [104] emptyExpState =
      .ok ":1"
        { emptyExpState with
          nextmark := 2, files := [("f", [some ":1"])],
          filedata := [(":1", [104])],
          output := [OutItem.line "blob", OutItem.line "mark :1",
            OutItem.line "data 1", OutItem.raw [104], OutItem.line ""] } := by
  have h := (c10_blob_mark_discipline).1 emptyExpState "f" [104] (by rfl)
  exact h

/-! C6 amended development: the add_segment invariant. -/

/-- adjacentOKB holds exactly when consecutive ranges leave a gap of at
least one revision. -/
theorem adjacentOKB_iff_chain : ∀ l : List (Int × Int × Bool),
    adjacentOKB l = true ↔ List.Chain' (fun a b => a.2.1 + 1 < b.1) l
  | [] => by simp [adjacentOKB]
  | [a] => by simp [adjacentOKB]
  | a :: b :: rest => by
      rw [List.chain'_cons]
      simp [adjacentOKB, Bool.and_eq_true, decide_eq_true_eq,
        adjacentOKB_iff_chain (b :: rest)]

/-- The range-list invariant as a proposition: every range well formed and
the gaps strictly positive. -/
theorem rsInvB_iff (l : List (Int × Int × Bool)) :
    rsInvB l = true ↔
      (∀ r ∈ l, r.1 ≤ r.2.1) ∧ List.Chain' (fun a b => a.2.1 + 1 < b.1) l := by
  simp [rsInvB, List.all_eq_true, rangeWFB, adjacentOKB_iff_chain,
    Bool.and_eq_true, decide_eq_true_eq]

/-- A chain relates the elements at any two consecutive positions. -/
theorem chain_adjacent {α : Type} {R : α → α → Prop} {l : List α}
    (h : List.Chain' R l) (k : Nat) {a b : α}
    (ha : l[k]? = some a) (hb : l[k + 1]? = some b) : R a b := by
  have hk1 : k + 1 < l.length := by
    by_contra hcon
    rw [List.getElem?_eq_none (by omega)] at hb
    exact Option.noConfusion hb
  have hk : k < l.length - 1 := by omega
  have h1 := List.chain'_iff_get.mp h k hk
  rw [List.get_eq_getElem, List.get_eq_getElem] at h1
  have ha2 : l[k] = a := by
    rw [List.getElem?_eq_getElem (by omega)] at ha
    exact Option.some.inj ha
  have hb2 : l[k + 1] = b := by
    rw [List.getElem?_eq_getElem hk1] at hb
    exact Option.some.inj hb
  rw [ha2, hb2] at h1
  exact h1

/-- The last element of a nonempty take is the element just before the
cut. -/
theorem take_getLast? {α : Type} (l : List α) (k : Nat)
    (hk : 0 < k) (hkl : k ≤ l.length) :
    (l.take k).getLast? = l[k - 1]? := by
  rw [List.getLast?_eq_getElem?, List.length_take]
  have hmin : min k l.length = k := by omega
  rw [hmin, List.getElem?_take_of_lt (by omega)]

/-- bisect never passes the end of the list. -/
theorem bisectLeftRanges_le (l : List (Int × Int × Bool))
    (p : Int × Int × Bool) : bisectLeftRanges l p ≤ l.length :=
  (List.takeWhile_sublist _).length_le

/-- Splicing a fresh range over a slice of an invariant list preserves the
invariant when the new range is well formed and leaves gaps to both
remaining neighbors. -/
theorem splice_inv (l : RangeList) (starti stopi : Nat) (s1 e2 : Int)
    (hwf : ∀ r ∈ l, r.1 ≤ r.2.1)
    (hch : List.Chain' (fun a b : Int × Int × Bool => a.2.1 + 1 < b.1) l)
    (hnew : s1 ≤ e2)
    (hleft : ∀ a, (l.take starti).getLast? = some a → a.2.1 + 1 < s1)
    (hright : ∀ b, l[stopi]? = some b → e2 + 1 < b.1) :
    rsInvB (l.take starti ++ [(s1, e2, true)] ++ l.drop stopi) = true := by
  rw [rsInvB_iff]
  constructor
  · intro r hr
    rcases List.mem_append.mp hr with hr | hr
    · rcases List.mem_append.mp hr with hr | hr
      · exact hwf r (List.mem_of_mem_take hr)
      · rcases List.mem_singleton.mp hr with rfl
        exact hnew
    · exact hwf r (List.mem_of_mem_drop hr)
  · rw [List.chain'_append, List.chain'_append]
    refine ⟨⟨hch.take _, List.chain'_singleton _, ?_⟩, hch.drop _, ?_⟩
    · intro x hx y hy
      rw [Option.mem_def] at hx
      rw [Option.mem_def, List.head?_cons] at hy
      cases hy
      exact hleft x hx
    · intro x hx y hy
      rw [Option.mem_def, List.getLast?_concat] at hx
      cases hx
      rw [Option.mem_def, List.head?_drop] at hy
      exact hright y hy

/-- After the left coalescing decision of add_segment, resolving the right
neighbor and splicing keeps the invariant, provided the combined range
stays clear of the element after the right neighbor. -/
theorem addSeg_right (l : RangeList) (i : Nat) (s1 e1 : Int) (starti : Nat)
    (hwf : ∀ r ∈ l, r.1 ≤ r.2.1)
    (hch : List.Chain' (fun a b : Int × Int × Bool => a.2.1 + 1 < b.1) l)
    (hs1e1 : s1 ≤ e1)
    (hleft : ∀ a, (l.take starti).getLast? = some a → a.2.1 + 1 < s1)
    (hnext : ∀ b, l[i + 1]? = some b → e1 + 1 < b.1) :
    rsInvB (match (match l.get? i with
        | some (rs, re, _) => if rs ≤ e1 + 1 then (max e1 re, i + 1) else (e1, i)
        | none => (e1, i)) with
      | (e2, stopi) => l.take starti ++ [(s1, e2, true)] ++ l.drop stopi) = true := by
  cases hR : l.get? i with
  | none =>
      rw [List.get?_eq_getElem?] at hR
      show rsInvB (l.take starti ++ [(s1, e1, true)] ++ l.drop i) = true
      refine splice_inv l starti i s1 e1 hwf hch hs1e1 hleft ?_
      intro b hb
      rw [hR] at hb
      exact Option.noConfusion hb
  | some r =>
      obtain ⟨rsR, reR, bR⟩ := r
      rw [List.get?_eq_getElem?] at hR
      by_cases hcr : rsR ≤ e1 + 1
      · show rsInvB (match (if rsR ≤ e1 + 1 then (max e1 reR, i + 1) else (e1, i)) with
          | (e2, stopi) => l.take starti ++ [(s1, e2, true)] ++ l.drop stopi) = true
        rw [if_pos hcr]
        show rsInvB (l.take starti ++ [(s1, max e1 reR, true)] ++ l.drop (i + 1)) = true
        refine splice_inv l starti (i + 1) s1 (max e1 reR) hwf hch
          (le_trans hs1e1 (le_max_left _ _)) hleft ?_
        intro b hb
        have h1 := hnext b hb
        have h2 : reR + 1 < b.1 := chain_adjacent hch i hR hb
        rcases max_cases e1 reR with ⟨hm, _⟩ | ⟨hm, _⟩ <;> rw [hm] <;> omega
      · show rsInvB (match (if rsR ≤ e1 + 1 then (max e1 reR, i + 1) else (e1, i)) with
          | (e2, stopi) => l.take starti ++ [(s1, e2, true)] ++ l.drop stopi) = true
        rw [if_neg hcr]
        show rsInvB (l.take starti ++ [(s1, e1, true)] ++ l.drop i) = true
        refine splice_inv l starti i s1 e1 hwf hch hs1e1 hleft ?_
        intro b hb
        rw [hR] at hb
        injection hb with hb2
        subst hb2
        show e1 + 1 < rsR
        omega

/-- addSegmentList with its insertion point abstracted as a name. -/
theorem addSegmentList_eq (l : RangeList) (s e : Int) (i : Nat)
    (hidef : bisectLeftRanges l (s, 0, true) = i) :
    addSegmentList l s e =
      (match (if i = 0 then ((s : Int), (e : Int), i)
          else match l.get? (i - 1) with
            | some (rs, re, _) =>
                if re + 1 ≥ s then (rs, max e re, i - 1) else (s, e, i)
            | none => (s, e, i)) with
        | (s1, e1, starti) =>
            match (match l.get? i with
              | some (rs, re, _) =>
                  if rs ≤ e1 + 1 then (max e1 re, i + 1) else (e1, i)
              | none => (e1, i)) with
            | (e2, stopi) => l.take starti ++ [(s1, e2, true)] ++ l.drop stopi) := by
  subst hidef
  rfl

/-- C6 amended.  add_segment preserves the sorted non-overlapping
non-abutting invariant whenever the inserted segment does not extend past
the right neighbor: every range after the insertion point's successor
starts above end plus one. -/
theorem c6_add_segment_preserves_invariant (l : RangeList) (s e : Int)
    (hinv : rsInvB l = true) (hse : s ≤ e)
    (hfar : ∀ r ∈ l.drop (bisectLeftRanges l (s, 0, true) + 1), e + 1 < r.1) :
    rsInvB (addSegmentList l s e) = true := by
  rcases (rsInvB_iff l).mp hinv with ⟨hwf, hch⟩
  obtain ⟨i, hidef⟩ : ∃ i, bisectLeftRanges l (s, 0, true) = i := ⟨_, rfl⟩
  rw [hidef] at hfar
  have hil : i ≤ l.length := hidef ▸ bisectLeftRanges_le l _
  have hnextE : ∀ b : Int × Int × Bool, l[i + 1]? = some b → e + 1 < b.1 := by
    intro b hb
    have h0 : (l.drop (i + 1))[0]? = some b := by
      rw [List.getElem?_drop]
      simpa using hb
    exact hfar b (List.getElem?_mem h0)
  rw [addSegmentList_eq l s e i hidef]
  by_cases hi0 : i = 0
  · subst hi0
    rw [if_pos rfl]
    refine addSeg_right l 0 s e 0 hwf hch hse ?_ hnextE
    intro a ha
    simp at ha
  · rw [if_neg hi0]
    cases hL : l.get? (i - 1) with
    | none =>
        have hlt : i - 1 < l.length := by omega
        rw [List.get?_eq_getElem?, List.getElem?_eq_getElem hlt] at hL
        exact Option.noConfusion hL
    | some r =>
        obtain ⟨rsL, reL, bL⟩ := r
        have hLElem : l[i - 1]? = some (rsL, reL, bL) :=
          (List.get?_eq_getElem? l (i - 1)) ▸ hL
        show rsInvB (match (if reL + 1 ≥ s
            then (rsL, max e reL, i - 1) else ((s : Int), (e : Int), i)) with
          | (s1, e1, starti) =>
              match (match l.get? i with
                | some (rs, re, _) =>
                    if rs ≤ e1 + 1 then (max e1 re, i + 1) else (e1, i)
                | none => (e1, i)) with
              | (e2, stopi) =>
                  l.take starti ++ [(s1, e2, true)] ++ l.drop stopi) = true
        by_cases hcl : reL + 1 ≥ s
        · rw [if_pos hcl]
          have hwfL : rsL ≤ reL := hwf _ (List.getElem?_mem hLElem)
          refine addSeg_right l i rsL (max e reL) (i - 1) hwf hch
            (le_trans hwfL (le_max_right e reL)) ?_ ?_
          · intro a ha
            by_cases hi1 : i - 1 = 0
            · rw [hi1] at ha
              simp at ha
            · rw [take_getLast? l (i - 1) (by omega) (by omega)] at ha
              have ha2 : l[i - 2]? = some a := by
                have he2 : i - 1 - 1 = i - 2 := by omega
                rw [he2] at ha
                exact ha
              have h2 : l[(i - 2) + 1]? = some (rsL, reL, bL) := by
                have he1 : (i - 2) + 1 = i - 1 := by omega
                rw [he1]
                exact hLElem
              exact chain_adjacent hch (i - 2) ha2 h2
          · intro b hb
            have h1 := hnextE b hb
            have hiL : i < l.length := by
              by_contra hcon
              rw [List.getElem?_eq_none (by omega)] at hb
              exact Option.noConfusion hb
            have hIelem : l[i]? = some (l.get ⟨i, hiL⟩) := by
              rw [List.get_eq_getElem]
              exact List.getElem?_eq_getElem hiL
            have hadj1 : reL + 1 < (l.get ⟨i, hiL⟩).1 := by
              have hi1 : (i - 1) + 1 = i := by omega
              exact chain_adjacent hch (i - 1) hLElem (by rw [hi1]; exact hIelem)
            have hadj2 : (l.get ⟨i, hiL⟩).2.1 + 1 < b.1 :=
              chain_adjacent hch i hIelem hb
            have hwfi : (l.get ⟨i, hiL⟩).1 ≤ (l.get ⟨i, hiL⟩).2.1 :=
              hwf _ (List.getElem?_mem hIelem)
            rcases max_cases e reL with ⟨hm, _⟩ | ⟨hm, _⟩ <;> rw [hm] <;> omega
        · rw [if_neg hcl]
          refine addSeg_right l i s e i hwf hch hse ?_ hnextE
          intro a ha
          rw [take_getLast? l i (by omega) hil] at ha
          rw [hLElem] at ha
          injection ha with ha2
          rw [← ha2]
          show reL + 1 < s
          omega

/-- Witness for the amended C6 theorem on a concrete insertion that
coalesces left and reaches nothing on the right. -/
theorem c6_add_segment_preserves_invariant_witness :
    rsInvB (addSegmentList [((1 : Int), (2 : Int), true), (5, 6, true)] 3 3) = true :=
  c6_add_segment_preserves_invariant [((1 : Int), (2 : Int), true), (5, 6, true)] 3 3
    (by decide) (by decide) (by decide)
